import Mathlib

/-!
Verification development for the decky-mirror plugin store
(`src/plugin_store/{app.py, models.py, admin.py, database.py}`).

The relational store is modeled as explicit state (`DB`): a list of `Plugin`
rows, a list of `PluginVersion` rows, and the autoincrement counters of the
two primary keys.  The SQLAlchemy session is modeled transactionally: row
inserts and field updates performed during one request become visible to the
later reads of the same request, and a request that raises before reaching
`db.commit()` leaves the store unchanged (modeled by `Except`, whose error
result carries no state).

JSON objects from the upstream snapshot are modeled as typed records in
which every field is `none` when the corresponding key is absent from the
object (or carries JSON `null`, for the keys that the source reads with a
bare `dict.get(key)`).  Snapshots that put an explicit `null` under a key
that the source reads with a two-argument `dict.get(key, default)` are
outside the model.
-/

namespace DeckyMirror

/-- A parsed `datetime.datetime` value, modeled by the ISO-8601 text it was
parsed from (after the `Z` to `+00:00` rewrite done by `parse_iso8601`).
No endpoint modeled here does calendar arithmetic, so a datetime is
identified with its source text and `isoformat()` returns that text. -/
structure DateTime where
  s : String
deriving DecidableEq, Repr

/-- The `YYYY-MM-DD` date part accepted by `datetime.fromisoformat`. -/
def validDate : List Char → Bool
  | [y1, y2, y3, y4, '-', m1, m2, '-', d1, d2] =>
      y1.isDigit && y2.isDigit && y3.isDigit && y4.isDigit &&
      m1.isDigit && m2.isDigit && d1.isDigit && d2.isDigit
  | _ => false

/-- The `HH:MM:SS` time part accepted by `datetime.fromisoformat`. -/
def validTime : List Char → Bool
  | [h1, h2, ':', m1, m2, ':', s1, s2] =>
      h1.isDigit && h2.isDigit && m1.isDigit && m2.isDigit &&
      s1.isDigit && s2.isDigit
  | _ => false

/-- A `+HH:MM` or `-HH:MM` UTC-offset part accepted by
`datetime.fromisoformat`. -/
def validOffset : List Char → Bool
  | [sg, h1, h2, ':', m1, m2] =>
      (sg = '+' || sg = '-') && h1.isDigit && h2.isDigit && m1.isDigit && m2.isDigit
  | _ => false

/-- Model of Python `datetime.fromisoformat`: accepts `YYYY-MM-DD`,
optionally followed by `T` plus `HH:MM:SS`, optionally followed by a
`+HH:MM`-style offset; anything else raises `ValueError` (`none` here).
Numeric range checks (month at most 12 and so on) and sub-second precision
are not modeled; no claim depends on them. -/
def fromisoformat (str : String) : Option DateTime :=
  let cs := str.toList
  let ok :=
    if cs.length ≤ 10 then validDate cs
    else
      validDate (cs.take 10) &&
      (cs.drop 10).headD ' ' = 'T' &&
      (let rest := cs.drop 11
       validTime rest || (validTime (rest.take 8) && validOffset (rest.drop 8)))
  if ok then some ⟨str⟩ else none

/-- The one exception kind the reconciliation path can raise:
`ValueError` escaping from `datetime.fromisoformat`. -/
inductive SyncError
  | valueError
deriving DecidableEq, Repr

/-- Python `s.endswith("Z")`: the last character is `Z`. -/
def endsWithZ (s : String) : Bool :=
  match s.toList.getLast? with
  | some ch => ch = 'Z'
  | none => false

/-- Python `s.replace("Z", "+00:00")` for the one-character pattern `"Z"`:
every occurrence of `Z` is replaced, as in the source. -/
def replaceZ : List Char → List Char
  | [] => []
  | ch :: rest =>
    if ch = 'Z' then '+' :: '0' :: '0' :: ':' :: '0' :: '0' :: replaceZ rest
    else ch :: replaceZ rest

/-- `parse_iso8601` from `app.py`.  A falsy argument (`None` or the empty
string) yields `None`.  A string with a trailing `"Z"` is rewritten with
`str.replace("Z", "+00:00")`.  `datetime.fromisoformat` then either parses
the string or raises `ValueError` — the source has no `try`/`except`, so
the error propagates to the caller. -/
def parse_iso8601 : Option String → Except SyncError (Option DateTime)
  | none => .ok none
  | some s =>
    if s = "" then .ok none
    else
      let s2 : String := if endsWithZ s then ⟨replaceZ s.toList⟩ else s
      match fromisoformat s2 with
      | some d => .ok (some d)
      | none => .error .valueError

/-- A row of the `plugins` table (`models.py`, class `Plugin`).  The `tags`
column stores `json.dumps` of a list of strings; it is modeled by the
decoded list (`json.dumps` and `json.loads` are inverse on the values this
code ever stores). -/
structure Plugin where
  id : Nat
  upstream_id : Option Int := none
  name : Option String := none
  author : Option String := none
  description : Option String := none
  tags : Option (List String) := none
  visible : Bool := true
  image_url : Option String := none
  downloads : Int := 0
  updates : Int := 0
  created : Option DateTime := none
  updated : Option DateTime := none
deriving DecidableEq, Repr

/-- A row of the `plugin_versions` table (`models.py`, class
`PluginVersion`). -/
structure PluginVersion where
  id : Nat
  plugin_id : Nat
  name : Option String := none
  hash : Option String := none
  artifact : Option String := none
  created : Option DateTime := none
  downloads : Int := 0
  updates : Int := 0
deriving DecidableEq, Repr

/-- The SQLite store: both tables in insertion (rowid) order, plus the next
value of each autoincrement primary key. -/
structure DB where
  plugins : List Plugin := []
  versions : List PluginVersion := []
  nextPluginId : Nat := 0
  nextVersionId : Nat := 0
deriving DecidableEq, Repr

def emptyDB : DB := {}

/-- One element of a plugin entry's `versions` list in the upstream
snapshot.  Every field is read by the source with `dict.get`, so each is
optional. -/
structure VersionItem where
  name : Option String := none
  hash : Option String := none
  artifact : Option String := none
  created : Option String := none
  downloads : Option Int := none
  updates : Option Int := none
deriving DecidableEq, Repr

/-- One plugin entry of the upstream snapshot (`plugin_item` in
`ensure_plugins_synced`).  The `versions` key defaults to the empty list,
exactly as `plugin_item.get("versions", [])` does. -/
structure PluginItem where
  id : Option Int := none
  name : Option String := none
  author : Option String := none
  description : Option String := none
  tags : Option (List String) := none
  image_url : Option String := none
  downloads : Option Int := none
  updates : Option Int := none
  created : Option String := none
  updated : Option String := none
  versions : List VersionItem := []
deriving DecidableEq, Repr

/-- Python `d.get(key, current)` for an optional column: keep the current
value when the key is absent. -/
def getOpt (new old : Option α) : Option α :=
  match new with
  | some v => some v
  | none => old

/-- The `Plugin(...)` constructor call on the create path of
`ensure_plugins_synced` (app.py lines 82-94): every upstream-owned field is
copied, `visible` is forced to `False`, counters default to 0, timestamps
are the (already parsed) `created`/`updated` arguments. -/
def createPlugin (pid : Nat) (uid : Int) (item : PluginItem)
    (created updated : Option DateTime) : Plugin :=
  { id := pid
    upstream_id := some uid
    name := item.name
    author := item.author
    description := item.description
    tags := some (item.tags.getD [])
    visible := false
    image_url := item.image_url
    downloads := item.downloads.getD 0
    updates := item.updates.getD 0
    created := created
    updated := updated }

/-- The update path of `ensure_plugins_synced` (app.py lines 98-110): each
upstream-owned field is overwritten only when the snapshot supplies it,
timestamps only when they parsed to a truthy (non-`None`) value, and
`visible` is never touched. -/
def updatePlugin (item : PluginItem) (created updated : Option DateTime)
    (p : Plugin) : Plugin :=
  { p with
    name := getOpt item.name p.name
    author := getOpt item.author p.author
    description := getOpt item.description p.description
    tags := some (item.tags.getD (p.tags.getD []))
    image_url := getOpt item.image_url p.image_url
    downloads := item.downloads.getD p.downloads
    updates := item.updates.getD p.updates
    created := if created.isSome then created else p.created
    updated := if updated.isSome then updated else p.updated }

/-- Natural key of a stored version row. -/
def vkey (v : PluginVersion) : Option String × Option String := (v.name, v.hash)

/-- Natural key of an upstream version entry. -/
def ikey (vi : VersionItem) : Option String × Option String := (vi.name, vi.hash)

/-- Lookup in the dict `{(v.name, v.hash): v for v in plugin.versions}`
(app.py lines 112-114).  A Python dict comprehension keeps the last entry
for a duplicated key, so the lookup scans the list from the end. -/
def dictFind (l : List PluginVersion) (k : Option String × Option String) :
    Option PluginVersion :=
  l.reverse.find? (fun v => vkey v == k)

/-- The `PluginVersion(...)` constructor call on the version create path
(app.py lines 124-132). -/
def createVersion (vid pid : Nat) (vi : VersionItem)
    (created : Option DateTime) : PluginVersion :=
  { id := vid
    plugin_id := pid
    name := vi.name
    hash := vi.hash
    created := created
    downloads := vi.downloads.getD 0
    updates := vi.updates.getD 0
    artifact := vi.artifact }

/-- The version update path (app.py lines 135-145): `created` only when it
parsed truthy, counters via `dict.get` with the current value as default,
`artifact` only when the snapshot value is not `None`. -/
def updateVersion (vi : VersionItem) (created : Option DateTime)
    (v : PluginVersion) : PluginVersion :=
  { v with
    created := if created.isSome then created else v.created
    downloads := vi.downloads.getD v.downloads
    updates := vi.updates.getD v.updates
    artifact := getOpt vi.artifact v.artifact }

/-- The rows of the `plugin.versions` relationship for the plugin with
primary key `pid`: all stored versions whose `plugin_id` points at it. -/
def existingFor (db : DB) (pid : Nat) : List PluginVersion :=
  db.versions.filter (fun v => v.plugin_id == pid)

/-- One iteration of the inner `for version_item in ...` loop of
`ensure_plugins_synced`.  `existing` is the dict built once before the loop;
it is deliberately NOT refreshed when the loop inserts new rows, exactly as
in the source.  An update mutates the row object found in the dict, modeled
as replacing the row with that primary key. -/
def syncVersionItem (pid : Nat) (existing : List PluginVersion) (db : DB)
    (vi : VersionItem) : Except SyncError DB :=
  match dictFind existing (ikey vi) with
  | none => do
    let created ← parse_iso8601 vi.created
    .ok { db with
            versions := db.versions ++ [createVersion db.nextVersionId pid vi created]
            nextVersionId := db.nextVersionId + 1 }
  | some ev => do
    let created ← parse_iso8601 vi.created
    .ok { db with
            versions := db.versions.map
              (fun w => if w.id = ev.id then updateVersion vi created w else w) }

/-- The inner `for version_item in plugin_item.get("versions", [])` loop. -/
def syncVersions (pid : Nat) (existing : List PluginVersion) :
    List VersionItem → DB → Except SyncError DB
  | [], db => .ok db
  | vi :: rest, db => do
    let db1 ← syncVersionItem pid existing db vi
    syncVersions pid existing rest db1

/-- The store right after the `db.add(plugin); db.flush()` of the plugin
create path: the new row (with the next primary key) is appended. -/
def dbCreate (db : DB) (uid : Int) (item : PluginItem)
    (created updated : Option DateTime) : DB :=
  { db with
      plugins := db.plugins ++ [createPlugin db.nextPluginId uid item created updated]
      nextPluginId := db.nextPluginId + 1 }

/-- The store right after the field assignments of the plugin update path:
the fetched row object is mutated in place, modeled as replacement of the
row with that primary key. -/
def dbUpdate (db : DB) (item : PluginItem) (created updated : Option DateTime)
    (p : Plugin) : DB :=
  { db with
      plugins := db.plugins.map
        (fun q => if q.id = p.id then updatePlugin item created updated q else q) }

/-- One iteration of the outer `for plugin_item in plugins_data` loop of
`ensure_plugins_synced` (app.py lines 70-145): skip entries without an
upstream id; otherwise look the plugin up by `upstream_id` and either create
it (with `visible=False`) or update its upstream-owned fields; then fold the
entry's version list over the dict of the plugin's existing versions. -/
def syncPluginItem (db : DB) (item : PluginItem) : Except SyncError DB :=
  match item.id with
  | none => .ok db
  | some uid =>
    match db.plugins.find? (fun p => p.upstream_id == some uid) with
    | none => do
      let created ← parse_iso8601 item.created
      let updated ← parse_iso8601 item.updated
      let db1 := dbCreate db uid item created updated
      syncVersions db.nextPluginId (existingFor db1 db.nextPluginId) item.versions db1
    | some p => do
      let created ← parse_iso8601 item.created
      let updated ← parse_iso8601 item.updated
      let db1 := dbUpdate db item created updated p
      syncVersions p.id (existingFor db1 p.id) item.versions db1

/-- `ensure_plugins_synced` from `app.py`, as a function of the decoded
upstream snapshot (`load_plugins_from_source()` result) and the store.  The
single `db.commit()` sits after the whole loop, so an exception anywhere
leaves the store unchanged: the `.error` result carries no state. -/
def ensure_plugins_synced : List PluginItem → DB → Except SyncError DB
  | [], db => .ok db
  | item :: rest, db => do
    let db1 ← syncPluginItem db item
    ensure_plugins_synced rest db1

/-- The version part of the projection built by `plugin_to_dict`. -/
structure VersionDict where
  name : Option String
  hash : Option String
  created : Option String
  downloads : Int
  updates : Int
deriving DecidableEq, Repr

/-- The projection built by `plugin_to_dict` in `app.py`. -/
structure PluginDict where
  id : Int
  name : Option String
  author : Option String
  description : Option String
  tags : List String
  versions : List VersionDict
  visible : Bool
  image_url : Option String
  downloads : Int
  updates : Int
  created : Option String
  updated : Option String
deriving DecidableEq, Repr

/-- The `v.created.isoformat().replace("+00:00", "Z") if v.created else None`
idiom of `plugin_to_dict`. -/
def isoformatZ : Option DateTime → Option String
  | none => none
  | some d => some (d.s.replace "+00:00" "Z")

/-- `plugin_to_dict` from `app.py`.  The `id` field is
`plugin.upstream_id or plugin.id`: Python `or` falls back to the local id
when `upstream_id` is `None` OR the (falsy) integer 0. -/
def plugin_to_dict (db : DB) (p : Plugin) : PluginDict :=
  { id := match p.upstream_id with
      | some n => if n = 0 then (p.id : Int) else n
      | none => (p.id : Int)
    name := p.name
    author := p.author
    description := p.description
    tags := p.tags.getD []
    versions := (existingFor db p.id).map (fun v =>
      { name := v.name
        hash := v.hash
        created := isoformatZ v.created
        downloads := v.downloads
        updates := v.updates })
    visible := p.visible
    image_url := p.image_url
    downloads := p.downloads
    updates := p.updates
    created := isoformatZ p.created
    updated := isoformatZ p.updated }

/-- Case-insensitive substring test: the `column.ilike(f"%{query}%")`
comparison of `get_plugins`, for patterns without SQL wildcard characters
inside `query` (wildcards inside the search term are not modeled).  A SQL
`NULL` column never matches. -/
def ilike (field : Option String) (pat : String) : Bool :=
  match field with
  | none => false
  | some s => pat = "" || ((s.toLower.splitOn pat.toLower).length ≥ 2)

/-- The row set served by `GET /plugins` (after the sync): plugins with
`visible = True`, optionally narrowed by the case-insensitive name or
description match.  A falsy query (absent or empty) applies no narrowing. -/
def visible_plugins (query : Option String) (db : DB) : List Plugin :=
  let base := db.plugins.filter (fun p => p.visible)
  match query with
  | none => base
  | some q =>
    if q = "" then base
    else base.filter (fun p => ilike p.name q || ilike p.description q)

/-- The `GET /plugins` endpoint: run the sync against the cached snapshot,
then serve the visibility- and search-filtered projections. -/
def get_plugins (snapshot : List PluginItem) (query : Option String)
    (db : DB) : Except SyncError (List PluginDict × DB) := do
  let db1 ← ensure_plugins_synced snapshot db
  .ok ((visible_plugins query db1).map (plugin_to_dict db1), db1)

/-- The three possible returns of `increment_plugin_version_counter`:
the `{"error": "Plugin not found"}` body, the
`({"error": "Plugin version not found"}, 404)` body, and the empty success
object. -/
inductive IncrementResult
  | pluginNotFound
  | versionNotFound
  | success
deriving DecidableEq, Repr

/-- `POST /plugins/{plugin_name}/versions/{version_name}/increment` from
`app.py`: resolve the first plugin row whose `name` equals `plugin_name`,
then the first of its version rows whose `name` equals `version_name`
(the hash is not part of this lookup); on success bump the pair of
counters selected by `isUpdate` and commit; on either miss return the
not-found result without touching the store. -/
def increment_plugin_version_counter (plugin_name version_name : String)
    (isUpdate : Bool) (db : DB) : IncrementResult × DB :=
  match db.plugins.find? (fun p => p.name == some plugin_name) with
  | none => (.pluginNotFound, db)
  | some plugin =>
    match db.versions.find?
        (fun v => v.plugin_id == plugin.id && v.name == some version_name) with
    | none => (.versionNotFound, db)
    | some version =>
      if isUpdate then
        (.success,
         { db with
             versions := db.versions.map
               (fun w => if w.id = version.id then { w with updates := w.updates + 1 } else w)
             plugins := db.plugins.map
               (fun q => if q.id = plugin.id then { q with updates := q.updates + 1 } else q) })
      else
        (.success,
         { db with
             versions := db.versions.map
               (fun w => if w.id = version.id then { w with downloads := w.downloads + 1 } else w)
             plugins := db.plugins.map
               (fun q => if q.id = plugin.id then { q with downloads := q.downloads + 1 } else q) })

/-- The HTTP status code FastAPI sends for each return value of
`increment_plugin_version_counter`.  The handler is a plain `def` with no
`Response` parameter and no `status_code` override; a returned Python
value that is not a `Response` is JSON-encoded as the body of a 200
response.  That holds for all three returns: the plain
`{"error": "Plugin not found"}` dict, the
`({"error": "Plugin version not found"}, status.HTTP_404_NOT_FOUND)`
TUPLE — which FastAPI serializes as a two-element JSON array
`[{"error": ...}, 404]` rather than treating the 404 as a status override
(contrast `admin.py`, which raises `HTTPException(status_code=404, ...)`
to actually send a 404) — and the success object.  So every outcome,
misses included, reaches the client as HTTP 200. -/
def incrementHttpStatus : IncrementResult → Nat
  | .pluginNotFound => 200
  | .versionNotFound => 200
  | .success => 200

/-- Outcome of the `verify_admin_token` dependency in `admin.py`.
`admin.py` never imports `status` (its imports are `os`, `json`,
`datetime`, `fastapi.{APIRouter, Depends, HTTPException, Header}`,
`sqlalchemy.orm.Session`, `models`, `database`, `pydantic`, `typing`), so
BOTH error branches fail before building their `HTTPException`: evaluating
`status.HTTP_503_SERVICE_UNAVAILABLE` on the unconfigured-secret branch and
`status.HTTP_401_UNAUTHORIZED` on the missing/wrong-token branch each raise
`NameError` — surfaced by FastAPI as HTTP 500.  The `serviceUnavailable`
and `unauthorized` constructors are the intended-but-unreachable outcomes;
the code can only produce `nameErrorUnboundStatus` or `authorized`. -/
inductive AuthOutcome
  | serviceUnavailable
  | unauthorized
  | nameErrorUnboundStatus
  | authorized
deriving DecidableEq, Repr

/-- `verify_admin_token` from `admin.py`.  `admin_token` is
`os.getenv("PLUGIN_STORE_ADMIN_TOKEN")` (None when unset), `token` the
`X-Plugin-Store-Token` header (None when missing); Python truthiness makes
`None` and `""` both count as unconfigured and as a missing header.  On
the unconfigured branch and on the missing/wrong-token branch alike the
first evaluated subexpression of the `raise` is the unbound name `status`,
so both produce `nameErrorUnboundStatus`, never `serviceUnavailable` or
`unauthorized`. -/
def verify_admin_token (admin_token token : Option String) : AuthOutcome :=
  if admin_token.getD "" = "" then
    .nameErrorUnboundStatus
  else
    match token with
    | none => .nameErrorUnboundStatus
    | some t =>
      if t = "" || t ≠ admin_token.getD "" then .nameErrorUnboundStatus else .authorized

/-- Request body of `POST /internal/plugins` (`PluginCreate` in
`admin.py`); it accepts an optional `image_url`. -/
structure PluginCreate where
  name : String
  author : String
  tags : List String
  description : String
  image_url : Option String := none
deriving DecidableEq, Repr

/-- `admin_create_plugin` from `admin.py`: inserts a locally-curated row
with `visible=False`, no `upstream_id`, zero counters, both timestamps set
to the current time (modeled as the parameter `now`), and — the `Plugin`
constructor call names no `image_url` argument — a `NULL` `image_url`
regardless of the payload.  Returns the id and name of the new row. -/
def admin_create_plugin (payload : PluginCreate) (now : DateTime) (db : DB) :
    (Nat × String) × DB :=
  let plugin : Plugin :=
    { id := db.nextPluginId
      upstream_id := none
      name := some payload.name
      author := some payload.author
      description := some payload.description
      tags := some payload.tags
      visible := false
      image_url := none
      downloads := 0
      updates := 0
      created := some now
      updated := some now }
  ((plugin.id, payload.name),
   { db with plugins := db.plugins ++ [plugin], nextPluginId := db.nextPluginId + 1 })

/-- `admin_update_plugin_visibility` from `admin.py`: 404 (`none`) when no
row has the given primary key, otherwise set `visible` on that row. -/
def admin_update_plugin_visibility (plugin_id : Nat) (visible : Bool)
    (db : DB) : Option DB :=
  match db.plugins.find? (fun p => p.id == plugin_id) with
  | none => none
  | some _ =>
    some { db with
             plugins := db.plugins.map
               (fun p => if p.id = plugin_id then { p with visible := visible } else p) }

/-- Declared properties of one SQLAlchemy `Column(...)` in `models.py`. -/
structure ColumnSpec where
  primary_key : Bool := false
  index : Bool := false
  unique : Bool := false
  nullable : Bool := true
deriving DecidableEq, Repr

/-- `Plugin.id = Column(Integer, primary_key=True, index=True)`. -/
def Plugin_id_col : ColumnSpec := { primary_key := true, index := true, nullable := false }

/-- `Plugin.upstream_id = Column(Integer, index=True, nullable=True)` —
an index, but no `unique=True`. -/
def Plugin_upstream_id_col : ColumnSpec := { index := true }

/-- `Plugin.name = Column(String, index=True, nullable=False)`. -/
def Plugin_name_col : ColumnSpec := { index := true, nullable := false }

/-- `PluginVersion.id = Column(Integer, primary_key=True, index=True)`. -/
def PluginVersion_id_col : ColumnSpec := { primary_key := true, index := true, nullable := false }

/-- `PluginVersion.plugin_id = Column(Integer, ForeignKey("plugins.id"), nullable=False)`. -/
def PluginVersion_plugin_id_col : ColumnSpec := { nullable := false }

/-- `PluginVersion.name = Column(String, nullable=False)`. -/
def PluginVersion_name_col : ColumnSpec := { nullable := false }

/-- `PluginVersion.hash = Column(String, nullable=False)`. -/
def PluginVersion_hash_col : ColumnSpec := { nullable := false }

/-- Table-level constraints of the `plugins` table: `models.py` declares no
`__table_args__`, in particular no `UniqueConstraint`. -/
def plugins_unique_constraints : List (List String) := []

/-- Table-level constraints of the `plugin_versions` table: `models.py`
declares no `__table_args__`, in particular no `UniqueConstraint` or unique
`Index` on `(plugin_id, name, hash)`. -/
def plugin_versions_unique_constraints : List (List String) := []

/-! ## Concrete stores and snapshots used by witnesses and counterexamples -/

/-- A stored plugin whose upstream id is the integer 0. -/
def c9Plugin : Plugin := { id := 5, upstream_id := some 0, visible := true }

/-- A store with one plugin named Foo and no version rows. -/
def c7DB : DB := { plugins := [{ id := 0, name := some "Foo", visible := false }], nextPluginId := 1 }

/-- A store with one plugin Foo (downloads 3, updates 4) and one version
1.0.0 under it (downloads 5, updates 6). -/
def c4DB : DB :=
  { plugins := [{ id := 0, name := some "Foo", visible := true, downloads := 3, updates := 4 }]
    versions := [{ id := 0, plugin_id := 0, name := some "1.0.0", hash := some "abc",
                   downloads := 5, updates := 6 }]
    nextPluginId := 1
    nextVersionId := 1 }

/-- A one-entry snapshot with a new upstream plugin (id 1) and one
version. -/
def c2Snap : List PluginItem :=
  [{ id := some 1, name := some "Foo",
     versions := [{ name := some "1.0", hash := some "h" }] }]

/-- The plugin row that reconciling `c2Snap` creates. -/
def c2NewPlugin : Plugin :=
  { id := 0, upstream_id := some 1, name := some "Foo", tags := some [], visible := false }

/-- The store produced by reconciling `c2Snap` into the empty store. -/
def c2DB : DB :=
  { plugins := [c2NewPlugin]
    versions := [{ id := 0, plugin_id := 0, name := some "1.0", hash := some "h" }]
    nextPluginId := 1
    nextVersionId := 1 }

/-- A known plugin with a locally meaningful description. -/
def c3Plugin : Plugin :=
  { id := 0, upstream_id := some 1, name := some "Foo", description := some "keep",
    tags := some [], visible := true }

/-- A known version row with an artifact pointer. -/
def c3Version : PluginVersion :=
  { id := 0, plugin_id := 0, name := some "1.0", hash := some "h", artifact := some "art" }

/-- A store holding `c3Plugin` and `c3Version`. -/
def c3DB : DB :=
  { plugins := [c3Plugin], versions := [c3Version], nextPluginId := 1, nextVersionId := 1 }

/-- A snapshot matching `c3DB` by upstream id and version key but omitting
`description` and `artifact`. -/
def c3Snap : List PluginItem :=
  [{ id := some 1, name := some "Foo2",
     versions := [{ name := some "1.0", hash := some "h", downloads := some 9 }] }]

/-- The store produced by reconciling `c3Snap` into `c3DB`: name and
version downloads overwritten, description and artifact untouched. -/
def c3DB2 : DB :=
  { plugins := [{ id := 0, upstream_id := some 1, name := some "Foo2",
                  description := some "keep", tags := some [], visible := true }]
    versions := [{ id := 0, plugin_id := 0, name := some "1.0", hash := some "h",
                   artifact := some "art", downloads := 9 }]
    nextPluginId := 1
    nextVersionId := 1 }

/-- A snapshot entry whose `created` string is non-empty but not ISO-8601. -/
def c5BadItem : PluginItem := { id := some 9, created := some "not-a-date" }

/-! ## Invariants used by the idempotence development -/

/-- Well-formedness every store reachable by the application satisfies:
primary keys are unique and below the autoincrement counters, and every
version row points at an existing plugin row (the declared foreign key). -/
structure WF (db : DB) : Prop where
  pNodup : (db.plugins.map Plugin.id).Nodup
  pLt : ∀ p ∈ db.plugins, p.id < db.nextPluginId
  vNodup : (db.versions.map PluginVersion.id).Nodup
  vLt : ∀ v ∈ db.versions, v.id < db.nextVersionId
  fk : ∀ v ∈ db.versions, ∃ p ∈ db.plugins, v.plugin_id = p.id

/-- The store has absorbed version entry `vi` for the plugin with primary
key `pid`: its `created` string parses, the dict rebuilt from the current
rows maps its key to a row that the version update path leaves unchanged,
and that row is the unique row with its id. -/
def VFix (pid : Nat) (vi : VersionItem) (db : DB) : Prop :=
  ∃ c, parse_iso8601 vi.created = .ok c ∧
  ∃ r, dictFind (existingFor db pid) (ikey vi) = some r ∧
       updateVersion vi c r = r ∧
       ∀ w ∈ db.versions, w.id = r.id → w = r

/-- The store has absorbed snapshot entry `item`: the lookup by upstream id
yields a row on which the plugin update path is the identity, that row is
the unique row with its id, and every version entry of `item` is absorbed
for it. -/
def PFix (item : PluginItem) (db : DB) : Prop :=
  ∀ uid, item.id = some uid →
  ∃ p, db.plugins.find? (fun q => q.upstream_id == some uid) = some p ∧
    (∃ c u, parse_iso8601 item.created = .ok c ∧ parse_iso8601 item.updated = .ok u ∧
       updatePlugin item c u p = p) ∧
    (∀ q ∈ db.plugins, q.id = p.id → q = p) ∧
    ∀ vi ∈ item.versions, VFix p.id vi db

/-- A mid-run state of one inner loop whose dict was built from `db0` for
plugin `pid`: the current store is `db0` with some key-, id- and
plugin_id-preserving in-place updates applied, plus rows appended for
`pid` whose keys all lie in `K` (the keys already processed). -/
def Phase (db0 : DB) (pid : Nat)
    (K : List (Option String × Option String)) (db : DB) : Prop :=
  ∃ G added,
    db.versions = db0.versions.map G ++ added ∧
    (∀ w, (G w).id = w.id ∧ (G w).plugin_id = w.plugin_id ∧ vkey (G w) = vkey w) ∧
    (∀ r ∈ added, r.plugin_id = pid ∧ vkey r ∈ K ∧ db0.nextVersionId ≤ r.id) ∧
    db0.nextVersionId ≤ db.nextVersionId

/-- A snapshot entry that repeats one `(name, hash)` key, the first
occurrence carrying an artifact and the second not. -/
def c1DupItem : PluginItem :=
  { id := some 1, name := some "Foo",
    versions := [{ name := some "1.0", hash := some "h", artifact := some "a" },
                 { name := some "1.0", hash := some "h" }] }

/-- The snapshot refuting strict run-twice/run-once equality. -/
def c1Snap : List PluginItem := [c1DupItem]

/-- The store after one sync of `c1Snap` into the empty store: the stale
dict made both duplicate entries take the create path, so the second row
carries no artifact. -/
def c1DB1 : DB :=
  { plugins := [{ id := 0, upstream_id := some 1, name := some "Foo",
                  tags := some [], visible := false }]
    versions := [{ id := 0, plugin_id := 0, name := some "1.0", hash := some "h",
                   artifact := some "a" },
                 { id := 1, plugin_id := 0, name := some "1.0", hash := some "h" }]
    nextPluginId := 1
    nextVersionId := 2 }

/-- The store after a second sync of `c1Snap`: both duplicate entries now
take the update path against the last row with their key, so the first
entry writes its artifact onto row 1 — a non-counter field changed. -/
def c1DB2 : DB :=
  { plugins := [{ id := 0, upstream_id := some 1, name := some "Foo",
                  tags := some [], visible := false }]
    versions := [{ id := 0, plugin_id := 0, name := some "1.0", hash := some "h",
                   artifact := some "a" },
                 { id := 1, plugin_id := 0, name := some "1.0", hash := some "h",
                   artifact := some "a" }]
    nextPluginId := 1
    nextVersionId := 2 }

/-- A duplicate-free snapshot: distinct upstream ids, and distinct
`(name, hash)` keys within each entry. -/
def c1GoodSnap : List PluginItem :=
  [{ id := some 1, name := some "Foo",
     versions := [{ name := some "1.0", hash := some "h", artifact := some "a" },
                  { name := some "2.0", hash := some "g" }] },
   { id := some 2, name := some "Bar" }]

/-! ## Record projection lemmas -/

@[simp] theorem updatePlugin_id (item : PluginItem) (c u : Option DateTime) (p : Plugin) :
    (updatePlugin item c u p).id = p.id := rfl

@[simp] theorem updatePlugin_upstream_id (item : PluginItem) (c u : Option DateTime) (p : Plugin) :
    (updatePlugin item c u p).upstream_id = p.upstream_id := rfl

@[simp] theorem updatePlugin_visible (item : PluginItem) (c u : Option DateTime) (p : Plugin) :
    (updatePlugin item c u p).visible = p.visible := rfl

@[simp] theorem updateVersion_id (vi : VersionItem) (c : Option DateTime) (v : PluginVersion) :
    (updateVersion vi c v).id = v.id := rfl

@[simp] theorem updateVersion_plugin_id (vi : VersionItem) (c : Option DateTime) (v : PluginVersion) :
    (updateVersion vi c v).plugin_id = v.plugin_id := rfl

@[simp] theorem updateVersion_name (vi : VersionItem) (c : Option DateTime) (v : PluginVersion) :
    (updateVersion vi c v).name = v.name := rfl

@[simp] theorem updateVersion_hash (vi : VersionItem) (c : Option DateTime) (v : PluginVersion) :
    (updateVersion vi c v).hash = v.hash := rfl

@[simp] theorem updateVersion_vkey (vi : VersionItem) (c : Option DateTime) (v : PluginVersion) :
    vkey (updateVersion vi c v) = vkey v := rfl

/-! ## List helper lemmas -/

theorem map_eq_self_of {α : Type} {l : List α} {f : α → α}
    (h : ∀ a ∈ l, f a = a) : l.map f = l := by
  induction l with
  | nil => rfl
  | cons a l ih =>
    simp only [List.map_cons, List.cons.injEq]
    exact ⟨h a (by simp), ih (fun b hb => h b (by simp [hb]))⟩

theorem find?_map_comm {α : Type} {l : List α} {f : α → α} {p : α → Bool}
    (hf : ∀ a, p (f a) = p a) : (l.map f).find? p = (l.find? p).map f := by
  induction l with
  | nil => rfl
  | cons a l ih =>
    simp only [List.map_cons, List.find?_cons]
    rw [hf a]
    cases hpa : p a <;> simp [ih]

theorem find?_append_some {α : Type} {l1 l2 : List α} {p : α → Bool} {a : α}
    (h : l1.find? p = some a) : (l1 ++ l2).find? p = some a := by
  induction l1 with
  | nil => cases h
  | cons b l1 ih =>
    simp only [List.cons_append, List.find?_cons] at h ⊢
    cases hb : p b <;> rw [hb] at h <;> simp_all [ih]

theorem find?_append_none {α : Type} {l1 l2 : List α} {p : α → Bool}
    (h : l1.find? p = none) : (l1 ++ l2).find? p = l2.find? p := by
  induction l1 with
  | nil => rfl
  | cons b l1 ih =>
    simp only [List.cons_append, List.find?_cons] at h ⊢
    cases hb : p b <;> rw [hb] at h <;> simp_all [ih]

theorem nodup_map_inj {α β : Type} {l : List α} {f : α → β}
    (h : (l.map f).Nodup) {a b : α} (ha : a ∈ l) (hb : b ∈ l)
    (hf : f a = f b) : a = b := by
  induction l with
  | nil => cases ha
  | cons x l ih =>
    simp only [List.map_cons, List.nodup_cons] at h
    rcases List.mem_cons.mp ha with rfl | ha2
    · rcases List.mem_cons.mp hb with rfl | hb2
      · rfl
      · exact absurd (hf ▸ List.mem_map_of_mem f hb2) h.1
    · rcases List.mem_cons.mp hb with rfl | hb2
      · exact absurd (hf ▸ List.mem_map_of_mem f ha2) h.1
      · exact ih h.2 ha2 hb2

/-! ## Monadic reduction and inversion lemmas for the sync loops -/

theorem exc_ok_bind {α β γ : Type} (a : α) (f : α → Except γ β) :
    (Except.ok a >>= f : Except γ β) = f a := rfl

theorem exc_error_bind {α β γ : Type} (e : γ) (f : α → Except γ β) :
    ((Except.error e : Except γ α) >>= f : Except γ β) = .error e := rfl

/-- Inversion of one inner-loop iteration: it parsed the entry's `created`
string and either appended a fresh row (dict miss) or updated by primary
key the row the stale dict yielded (dict hit). -/
theorem syncVersionItem_ok {pid : Nat} {ex : List PluginVersion} {db : DB}
    {vi : VersionItem} {dbA : DB}
    (h : syncVersionItem pid ex db vi = .ok dbA) :
    ∃ c, parse_iso8601 vi.created = .ok c ∧
      ((dictFind ex (ikey vi) = none ∧
        dbA = { db with
                  versions := db.versions ++ [createVersion db.nextVersionId pid vi c]
                  nextVersionId := db.nextVersionId + 1 }) ∨
       (∃ ev, dictFind ex (ikey vi) = some ev ∧
        dbA = { db with
                  versions := db.versions.map
                    (fun w => if w.id = ev.id then updateVersion vi c w else w) })) := by
  unfold syncVersionItem at h
  cases hd : dictFind ex (ikey vi) with
  | none =>
    rw [hd] at h
    cases hc : parse_iso8601 vi.created with
    | error e => rw [hc, exc_error_bind] at h; cases h
    | ok c =>
      rw [hc, exc_ok_bind] at h
      exact ⟨c, rfl, Or.inl ⟨rfl, (Except.ok.injEq _ _).mp h |>.symm⟩⟩
  | some ev =>
    rw [hd] at h
    cases hc : parse_iso8601 vi.created with
    | error e => rw [hc, exc_error_bind] at h; cases h
    | ok c =>
      rw [hc, exc_ok_bind] at h
      exact ⟨c, rfl, Or.inr ⟨ev, rfl, (Except.ok.injEq _ _).mp h |>.symm⟩⟩

/-- Inversion of one outer-loop iteration: either the entry lacks an
upstream id and is skipped, or both timestamps parsed and the loop ran the
create or the update path followed by the version sub-loop. -/
theorem syncPluginItem_ok {db : DB} {item : PluginItem} {db1 : DB}
    (h : syncPluginItem db item = .ok db1) :
    (item.id = none ∧ db1 = db) ∨
    ∃ uid, item.id = some uid ∧
      ∃ c u, parse_iso8601 item.created = .ok c ∧ parse_iso8601 item.updated = .ok u ∧
        ((db.plugins.find? (fun p => p.upstream_id == some uid) = none ∧
          syncVersions db.nextPluginId
            (existingFor (dbCreate db uid item c u) db.nextPluginId) item.versions
            (dbCreate db uid item c u) = .ok db1) ∨
         ∃ p, db.plugins.find? (fun q => q.upstream_id == some uid) = some p ∧
          syncVersions p.id (existingFor (dbUpdate db item c u p) p.id) item.versions
            (dbUpdate db item c u p) = .ok db1) := by
  unfold syncPluginItem at h
  split at h
  next hid =>
    exact Or.inl ⟨hid, ((Except.ok.injEq _ _).mp h).symm⟩
  next uid hid =>
    split at h
    next hf =>
      cases hc : parse_iso8601 item.created with
      | error e => rw [hc, exc_error_bind] at h; cases h
      | ok c =>
        rw [hc, exc_ok_bind] at h
        cases hu : parse_iso8601 item.updated with
        | error e => rw [hu, exc_error_bind] at h; cases h
        | ok u =>
          rw [hu, exc_ok_bind] at h
          exact Or.inr ⟨uid, hid, c, u, rfl, rfl, Or.inl ⟨hf, h⟩⟩
    next p hf =>
      cases hc : parse_iso8601 item.created with
      | error e => rw [hc, exc_error_bind] at h; cases h
      | ok c =>
        rw [hc, exc_ok_bind] at h
        cases hu : parse_iso8601 item.updated with
        | error e => rw [hu, exc_error_bind] at h; cases h
        | ok u =>
          rw [hu, exc_ok_bind] at h
          exact Or.inr ⟨uid, hid, c, u, rfl, rfl, Or.inr ⟨p, hf, h⟩⟩

/-- Inversion of one step of the sync loops (cons case). -/
theorem syncVersions_cons_ok {pid : Nat} {ex : List PluginVersion}
    {vi : VersionItem} {rest : List VersionItem} {db db1 : DB}
    (h : syncVersions pid ex (vi :: rest) db = .ok db1) :
    ∃ dbA, syncVersionItem pid ex db vi = .ok dbA ∧
      syncVersions pid ex rest dbA = .ok db1 := by
  unfold syncVersions at h
  cases hA : syncVersionItem pid ex db vi with
  | error e => rw [hA, exc_error_bind] at h; cases h
  | ok dbA => rw [hA, exc_ok_bind] at h; exact ⟨dbA, rfl, h⟩

/-- Inversion of one step of the outer loop (cons case). -/
theorem ensure_cons_ok {item : PluginItem} {rest : List PluginItem} {db db1 : DB}
    (h : ensure_plugins_synced (item :: rest) db = .ok db1) :
    ∃ dbA, syncPluginItem db item = .ok dbA ∧
      ensure_plugins_synced rest dbA = .ok db1 := by
  unfold ensure_plugins_synced at h
  cases hA : syncPluginItem db item with
  | error e => rw [hA, exc_error_bind] at h; cases h
  | ok dbA => rw [hA, exc_ok_bind] at h; exact ⟨dbA, rfl, h⟩

/-- The inner loop never touches the plugins table or its id counter. -/
theorem syncVersions_plugins {pid : Nat} {ex : List PluginVersion} :
    ∀ {vis : List VersionItem} {db db1 : DB},
      syncVersions pid ex vis db = .ok db1 →
      db1.plugins = db.plugins ∧ db1.nextPluginId = db.nextPluginId := by
  intro vis
  induction vis with
  | nil =>
    intro db db1 h
    cases h
    exact ⟨rfl, rfl⟩
  | cons vi rest ih =>
    intro db db1 h
    obtain ⟨dbA, hA, hrest⟩ := syncVersions_cons_ok h
    obtain ⟨c, _, hshape⟩ := syncVersionItem_ok hA
    have hstep : dbA.plugins = db.plugins ∧ dbA.nextPluginId = db.nextPluginId := by
      rcases hshape with ⟨_, rfl⟩ | ⟨ev, _, rfl⟩ <;> exact ⟨rfl, rfl⟩
    obtain ⟨h1, h2⟩ := ih hrest
    exact ⟨h1.trans hstep.1, h2.trans hstep.2⟩

/-! ## Pointwise preservation lemmas for the sync loops -/

/-- Transport of any plugin attribute that the update path leaves alone
through one outer-loop iteration: every stored plugin row survives (same
primary key) with that attribute unchanged. -/
theorem syncPluginItem_plugin_pres {α : Type} {g : Plugin → α} {db : DB}
    {item : PluginItem} {db1 : DB}
    (h : syncPluginItem db item = .ok db1)
    (hg : ∀ c u q, parse_iso8601 item.created = .ok c →
      parse_iso8601 item.updated = .ok u → g (updatePlugin item c u q) = g q) :
    ∀ p ∈ db.plugins, ∃ p2 ∈ db1.plugins, p2.id = p.id ∧ g p2 = g p := by
  intro p hp
  rcases syncPluginItem_ok h with ⟨_, rfl⟩ | ⟨uid, hid, c, u, hc, hu, hbranch⟩
  · exact ⟨p, hp, rfl, rfl⟩
  rcases hbranch with ⟨hf, hsv⟩ | ⟨q, hf, hsv⟩
  · refine ⟨p, ?_, rfl, rfl⟩
    rw [(syncVersions_plugins hsv).1]
    exact List.mem_append_left _ hp
  · refine ⟨if p.id = q.id then updatePlugin item c u p else p, ?_, ?_, ?_⟩
    · rw [(syncVersions_plugins hsv).1]
      exact List.mem_map.mpr ⟨p, hp, rfl⟩
    · split <;> simp
    · split
      · exact hg c u p hc hu
      · rfl

/-- Transport of any plugin attribute through the full outer loop. -/
theorem ensure_plugin_pres {α : Type} {g : Plugin → α} :
    ∀ {s : List PluginItem} {db db1 : DB},
      ensure_plugins_synced s db = .ok db1 →
      (∀ item ∈ s, ∀ c u q, parse_iso8601 item.created = .ok c →
        parse_iso8601 item.updated = .ok u → g (updatePlugin item c u q) = g q) →
      ∀ p ∈ db.plugins, ∃ p2 ∈ db1.plugins, p2.id = p.id ∧ g p2 = g p := by
  intro s
  induction s with
  | nil =>
    intro db db1 h hg p hp
    cases h
    exact ⟨p, hp, rfl, rfl⟩
  | cons item rest ih =>
    intro db db1 h hg p hp
    obtain ⟨dbA, hA, hrest⟩ := ensure_cons_ok h
    obtain ⟨p2, hp2, hid2, hg2⟩ :=
      syncPluginItem_plugin_pres hA (hg item (by simp)) p hp
    obtain ⟨p3, hp3, hid3, hg3⟩ :=
      ih hrest (fun it hit => hg it (by simp [hit])) p2 hp2
    exact ⟨p3, hp3, hid3.trans hid2, hg3.trans hg2⟩

/-- Transport of any version attribute that the version update path leaves
alone through one inner-loop iteration. -/
theorem syncVersionItem_version_pres {α : Type} {g : PluginVersion → α}
    {pid : Nat} {ex : List PluginVersion} {db : DB} {vi : VersionItem} {dbA : DB}
    (h : syncVersionItem pid ex db vi = .ok dbA)
    (hg : ∀ c w, parse_iso8601 vi.created = .ok c → g (updateVersion vi c w) = g w) :
    ∀ v ∈ db.versions, ∃ v2 ∈ dbA.versions, v2.id = v.id ∧ g v2 = g v := by
  intro v hv
  obtain ⟨c, hc, hshape⟩ := syncVersionItem_ok h
  rcases hshape with ⟨_, rfl⟩ | ⟨ev, _, rfl⟩
  · exact ⟨v, List.mem_append_left _ hv, rfl, rfl⟩
  · refine ⟨if v.id = ev.id then updateVersion vi c v else v,
      List.mem_map.mpr ⟨v, hv, rfl⟩, ?_, ?_⟩
    · split <;> simp
    · split
      · exact hg c v hc
      · rfl

/-- Transport of any version attribute through one run of the inner loop. -/
theorem syncVersions_version_pres {α : Type} {g : PluginVersion → α}
    {pid : Nat} {ex : List PluginVersion} :
    ∀ {vis : List VersionItem} {db db1 : DB},
      syncVersions pid ex vis db = .ok db1 →
      (∀ vi ∈ vis, ∀ c w, parse_iso8601 vi.created = .ok c →
        g (updateVersion vi c w) = g w) →
      ∀ v ∈ db.versions, ∃ v2 ∈ db1.versions, v2.id = v.id ∧ g v2 = g v := by
  intro vis
  induction vis with
  | nil =>
    intro db db1 h hg v hv
    cases h
    exact ⟨v, hv, rfl, rfl⟩
  | cons vi rest ih =>
    intro db db1 h hg v hv
    obtain ⟨dbA, hA, hrest⟩ := syncVersions_cons_ok h
    obtain ⟨v2, hv2, hid2, hg2⟩ :=
      syncVersionItem_version_pres hA (hg vi (by simp)) v hv
    obtain ⟨v3, hv3, hid3, hg3⟩ :=
      ih hrest (fun w hw => hg w (by simp [hw])) v2 hv2
    exact ⟨v3, hv3, hid3.trans hid2, hg3.trans hg2⟩

/-- Transport of any version attribute through one outer-loop iteration. -/
theorem syncPluginItem_version_pres {α : Type} {g : PluginVersion → α}
    {db : DB} {item : PluginItem} {db1 : DB}
    (h : syncPluginItem db item = .ok db1)
    (hg : ∀ vi ∈ item.versions, ∀ c w, parse_iso8601 vi.created = .ok c →
      g (updateVersion vi c w) = g w) :
    ∀ v ∈ db.versions, ∃ v2 ∈ db1.versions, v2.id = v.id ∧ g v2 = g v := by
  intro v hv
  rcases syncPluginItem_ok h with ⟨_, rfl⟩ | ⟨uid, hid, c, u, hc, hu, hbranch⟩
  · exact ⟨v, hv, rfl, rfl⟩
  rcases hbranch with ⟨hf, hsv⟩ | ⟨q, hf, hsv⟩
  · exact syncVersions_version_pres hsv hg v hv
  · exact syncVersions_version_pres hsv hg v hv

/-- Transport of any version attribute through the full outer loop. -/
theorem ensure_version_pres {α : Type} {g : PluginVersion → α} :
    ∀ {s : List PluginItem} {db db1 : DB},
      ensure_plugins_synced s db = .ok db1 →
      (∀ item ∈ s, ∀ vi ∈ item.versions, ∀ c w,
        parse_iso8601 vi.created = .ok c → g (updateVersion vi c w) = g w) →
      ∀ v ∈ db.versions, ∃ v2 ∈ db1.versions, v2.id = v.id ∧ g v2 = g v := by
  intro s
  induction s with
  | nil =>
    intro db db1 h hg v hv
    cases h
    exact ⟨v, hv, rfl, rfl⟩
  | cons item rest ih =>
    intro db db1 h hg v hv
    obtain ⟨dbA, hA, hrest⟩ := ensure_cons_ok h
    obtain ⟨v2, hv2, hid2, hg2⟩ :=
      syncPluginItem_version_pres hA (hg item (by simp)) v hv
    obtain ⟨v3, hv3, hid3, hg3⟩ :=
      ih hrest (fun it hit => hg it (by simp [hit])) v2 hv2
    exact ⟨v3, hv3, hid3.trans hid2, hg3.trans hg2⟩

/-- Origin of every plugin row after one outer-loop iteration: it either
descends (same primary key, same `visible`) from a row already present, or
it is a row the iteration created — and then `visible = false`. -/
theorem syncPluginItem_plugin_origin {db : DB} {item : PluginItem} {db1 : DB}
    (h : syncPluginItem db item = .ok db1) :
    ∀ p2 ∈ db1.plugins,
      (∃ p ∈ db.plugins, p.id = p2.id ∧ p.visible = p2.visible) ∨
      p2.visible = false := by
  intro p2 hp2
  rcases syncPluginItem_ok h with ⟨_, rfl⟩ | ⟨uid, hid, c, u, hc, hu, hbranch⟩
  · exact Or.inl ⟨p2, hp2, rfl, rfl⟩
  rcases hbranch with ⟨hf, hsv⟩ | ⟨q, hf, hsv⟩
  · rw [(syncVersions_plugins hsv).1] at hp2
    rcases List.mem_append.mp hp2 with hmem | hnew
    · exact Or.inl ⟨p2, hmem, rfl, rfl⟩
    · right
      have h2 : p2 = createPlugin db.nextPluginId uid item c u := by simpa using hnew
      rw [h2]
      rfl
  · rw [(syncVersions_plugins hsv).1] at hp2
    obtain ⟨p0, hp0, himg⟩ := List.mem_map.mp hp2
    left
    refine ⟨p0, hp0, ?_, ?_⟩ <;> rw [← himg]
    · split <;> simp
    · split <;> simp

/-- Origin of every plugin row after the full outer loop. -/
theorem ensure_plugin_origin :
    ∀ {s : List PluginItem} {db db1 : DB},
      ensure_plugins_synced s db = .ok db1 →
      ∀ p2 ∈ db1.plugins,
        (∃ p ∈ db.plugins, p.id = p2.id ∧ p.visible = p2.visible) ∨
        p2.visible = false := by
  intro s
  induction s with
  | nil =>
    intro db db1 h p2 hp2
    cases h
    exact Or.inl ⟨p2, hp2, rfl, rfl⟩
  | cons item rest ih =>
    intro db db1 h p2 hp2
    obtain ⟨dbA, hA, hrest⟩ := ensure_cons_ok h
    rcases ih hrest p2 hp2 with ⟨pA, hpA, hidA, hvA⟩ | hfalse
    · rcases syncPluginItem_plugin_origin hA pA hpA with ⟨p, hp, hid, hv⟩ | hAfalse
      · exact Or.inl ⟨p, hp, hid.trans hidA, hv.trans hvA⟩
      · exact Or.inr (hvA ▸ hAfalse)
    · exact Or.inr hfalse

/-- Every row served by `GET /plugins` has `visible = true`: the endpoint
filters on the `visible` column before any search narrowing. -/
theorem visible_plugins_visible {q : Option String} {db : DB} {p : Plugin}
    (hp : p ∈ visible_plugins q db) : p.visible = true := by
  unfold visible_plugins at hp
  split at hp
  · exact (List.mem_filter.mp hp).2
  · split at hp
    · exact (List.mem_filter.mp hp).2
    · exact (List.mem_filter.mp (List.mem_filter.mp hp).1).2

/-- The curation visibility endpoint sets `visible` on the addressed row. -/
theorem admin_visibility_sets {pid : Nat} {b : Bool} {db db2 : DB}
    (h : admin_update_plugin_visibility pid b db = some db2) :
    ∀ p ∈ db2.plugins, p.id = pid → p.visible = b := by
  unfold admin_update_plugin_visibility at h
  split at h
  · cases h
  · cases h
    intro p hp hid
    obtain ⟨q, hq, himg⟩ := List.mem_map.mp hp
    subst himg
    by_cases hqid : q.id = pid
    · simp [hqid]
    · simp only [if_neg hqid] at hid
      exact absurd hid hqid

/-! ## Claim C2 -/

/-- C2: the `visible` flag is locally owned.  Reconciliation preserves the
`visible` value of every pre-existing row (same primary key); every row it
creates has `visible = false`; a row with `visible = false` is excluded
from the `GET /plugins` result for every search term; and the curation
visibility endpoint is what sets `visible` on a row. -/
theorem C2_visible_locally_owned (s : List PluginItem) (db db1 : DB)
    (h : ensure_plugins_synced s db = .ok db1) :
    (∀ p ∈ db.plugins, ∃ p2 ∈ db1.plugins, p2.id = p.id ∧ p2.visible = p.visible) ∧
    (∀ p2 ∈ db1.plugins, (∀ p ∈ db.plugins, p.id ≠ p2.id) → p2.visible = false) ∧
    (∀ q : Option String, ∀ p2 ∈ db1.plugins, p2.visible = false →
      p2 ∉ visible_plugins q db1) ∧
    (∀ pid b db2, admin_update_plugin_visibility pid b db1 = some db2 →
      ∀ p3 ∈ db2.plugins, p3.id = pid → p3.visible = b) := by
  refine ⟨?_, ?_, ?_, ?_⟩
  · exact ensure_plugin_pres h (fun item hit c u q hc hu => rfl)
  · intro p2 hp2 hnone
    rcases ensure_plugin_origin h p2 hp2 with ⟨p, hp, hid, hv⟩ | hfalse
    · exact absurd hid (hnone p hp)
    · exact hfalse
  · intro q p2 _ hfalse hmem
    have htrue := visible_plugins_visible hmem
    rw [hfalse] at htrue
    exact Bool.noConfusion htrue
  · intro pid b db2 hupd p3 hp3 hid3
    exact admin_visibility_sets hupd p3 hp3 hid3

/-- Witness for C2: reconciling `c2Snap` into the empty store creates a
hidden plugin that no `GET /plugins` query (with or without a search term
that matches its name) can see. -/
theorem C2_visible_locally_owned_witness :
    c2NewPlugin.visible = false ∧
    c2NewPlugin ∉ visible_plugins (some "Foo") c2DB ∧
    c2NewPlugin ∉ visible_plugins none c2DB := by
  have h := C2_visible_locally_owned c2Snap emptyDB c2DB rfl
  have hfalse : c2NewPlugin.visible = false :=
    h.2.1 c2NewPlugin (List.mem_singleton_self _)
      (fun p hp => absurd hp (List.not_mem_nil p))
  exact ⟨hfalse,
    h.2.2.1 (some "Foo") c2NewPlugin (List.mem_singleton_self _) hfalse,
    h.2.2.1 none c2NewPlugin (List.mem_singleton_self _) hfalse⟩

/-! ## Claim C5 -/

/-- C5 counterexample: the claim says an unparseable timestamp string
leaves the field unchanged (update path) or null (create path) and the
sync continues.  In fact `parse_iso8601` has no exception handler: on a
non-empty unparseable string, `datetime.fromisoformat` raises and the
whole sync aborts with the error — nothing is committed. -/
theorem C5_counterexample :
    c5BadItem.created = some "not-a-date" ∧
    ensure_plugins_synced [c5BadItem] emptyDB = .error .valueError :=
  ⟨rfl, rfl⟩

/-- C5 amended: `parse_iso8601` accepts ISO-8601, tolerating a trailing
`Z` via the `+00:00` rewrite; a missing or empty timestamp string parses
to `None`, which leaves the field unchanged on the update path and null on
the create path; but a non-empty unparseable string raises `ValueError`,
aborting the entire sync with no store change (rather than continuing). -/
theorem C5_timestamp_handling :
    (∀ s : String, endsWithZ s = true →
      ∀ d, fromisoformat ⟨replaceZ s.toList⟩ = some d →
      parse_iso8601 (some s) = .ok (some d)) ∧
    (∀ s : String, s ≠ "" → endsWithZ s = false →
      ∀ d, fromisoformat s = some d → parse_iso8601 (some s) = .ok (some d)) ∧
    (parse_iso8601 none = .ok none ∧ parse_iso8601 (some "") = .ok none) ∧
    (∀ s : String, s ≠ "" →
      fromisoformat (if endsWithZ s then ⟨replaceZ s.toList⟩ else s) = none →
      parse_iso8601 (some s) = .error .valueError) ∧
    (∀ db item db1, syncPluginItem db item = .ok db1 → item.created = none →
      ∀ p ∈ db.plugins, ∃ p2 ∈ db1.plugins, p2.id = p.id ∧ p2.created = p.created) ∧
    (∀ db item db1 uid, item.id = some uid → item.created = none →
      db.plugins.find? (fun p => p.upstream_id == some uid) = none →
      syncPluginItem db item = .ok db1 →
      ∃ p2 ∈ db1.plugins, p2.id = db.nextPluginId ∧ p2.created = none ∧
        p2.upstream_id = some uid) ∧
    (∀ db item (s : String), item.id.isSome = true → item.created = some s →
      s ≠ "" →
      fromisoformat (if endsWithZ s then ⟨replaceZ s.toList⟩ else s) = none →
      syncPluginItem db item = .error .valueError) := by
  refine ⟨?_, ?_, ⟨rfl, rfl⟩, ?_, ?_, ?_, ?_⟩
  · intro s hZ d hp
    have hne : s ≠ "" := by
      intro h0
      rw [h0] at hZ
      exact absurd hZ (by decide)
    simp only [parse_iso8601]
    rw [if_neg hne, if_pos hZ, hp]
  · intro s hne hZf d hp
    simp only [parse_iso8601]
    rw [if_neg hne, if_neg (show ¬endsWithZ s = true by rw [hZf]; decide), hp]
  · intro s hne hbad
    simp only [parse_iso8601]
    rw [if_neg hne, hbad]
  · intro db item db1 h1 hcn
    refine syncPluginItem_plugin_pres h1 ?_
    intro c u q hc hu
    have hc0 : c = none := by
      rw [hcn] at hc
      exact ((Except.ok.injEq _ _).mp hc).symm
    show (if c.isSome then c else q.created) = q.created
    rw [hc0]
    rfl
  · intro db item db1 uid hid hcn hf h1
    rcases syncPluginItem_ok h1 with ⟨hnone, _⟩ | ⟨uid2, hid2, c, u, hc, hu, hbranch⟩
    · rw [hid] at hnone
      cases hnone
    · rw [hid] at hid2
      injection hid2 with he
      subst he
      rcases hbranch with ⟨hf2, hsv⟩ | ⟨p, hf2, hsv⟩
      · have hc0 : c = none := by
          rw [hcn] at hc
          exact ((Except.ok.injEq _ _).mp hc).symm
        refine ⟨createPlugin db.nextPluginId uid item c u, ?_, rfl, hc0, rfl⟩
        rw [(syncVersions_plugins hsv).1]
        exact List.mem_append_right _ (List.mem_singleton_self _)
      · rw [hf] at hf2
        cases hf2
  · intro db item s hsome hcs hne hbad
    have hpc : parse_iso8601 item.created = .error .valueError := by
      rw [hcs]
      simp only [parse_iso8601]
      rw [if_neg hne, hbad]
    unfold syncPluginItem
    split
    next hid0 =>
      rw [hid0] at hsome
      exact Bool.noConfusion hsome
    next uid hid0 =>
      split
      next hf => rw [hpc, exc_error_bind]
      next p hf => rw [hpc, exc_error_bind]

/-- Witness for C5 amended: a Z-suffixed ISO-8601 string parses, a
non-empty garbage string raises, and a snapshot entry carrying the garbage
string aborts its sync iteration. -/
theorem C5_timestamp_handling_witness :
    parse_iso8601 (some "2025-10-15T22:29:47Z") =
      .ok (some ⟨"2025-10-15T22:29:47+00:00"⟩) ∧
    parse_iso8601 (some "not-a-date") = .error .valueError ∧
    syncPluginItem emptyDB c5BadItem = .error .valueError :=
  ⟨C5_timestamp_handling.1 "2025-10-15T22:29:47Z" rfl _ rfl,
   C5_timestamp_handling.2.2.2.1 "not-a-date" (by decide) rfl,
   C5_timestamp_handling.2.2.2.2.2.2 emptyDB c5BadItem "not-a-date" rfl rfl
     (by decide) rfl⟩

/-! ## Claim C10 -/

/-- C10: the Curation API create-plugin operation accepts an `image_url`
field in its request payload but never stores it — for every create
request, the resulting `Plugin` row has `image_url = none` regardless of
the payload's `image_url` value (the `Plugin(...)` constructor call in
`admin_create_plugin` simply omits the field). -/
theorem C10_admin_create_ignores_image_url (payload : PluginCreate)
    (now : DateTime) (db : DB) :
    ∃ p : Plugin, (admin_create_plugin payload now db).2.plugins = db.plugins ++ [p] ∧
      p.image_url = none ∧ p.name = some payload.name ∧
      p.visible = false ∧ p.upstream_id = none :=
  ⟨_, rfl, rfl, rfl, rfl, rfl⟩

/-! ## Claim C9 -/

/-- C9 counterexample: the claim says the projection uses `upstreamId`
whenever it is present (non-null).  For `upstream_id = 0` — present and
non-null — `plugin.upstream_id or plugin.id` falls back to the local id,
because the integer 0 is falsy in Python. -/
theorem C9_counterexample :
    c9Plugin.upstream_id = some 0 ∧
    (plugin_to_dict emptyDB c9Plugin).id = 5 ∧ (5 : Int) ≠ 0 := by
  decide

/-- C9 amended: the projection's `id` field is `upstreamId` whenever
`upstreamId` is present AND truthy (non-null and nonzero); the local id is
used when `upstreamId` is null or the falsy integer 0. -/
theorem C9_id_prefers_truthy_upstream (db : DB) (p : Plugin) :
    (∀ n : Int, p.upstream_id = some n → n ≠ 0 → (plugin_to_dict db p).id = n) ∧
    (p.upstream_id = none ∨ p.upstream_id = some 0 →
      (plugin_to_dict db p).id = (p.id : Int)) := by
  constructor
  · intro n hn hnz
    simp [plugin_to_dict, hn, hnz]
  · rintro (h | h) <;> simp [plugin_to_dict, h]

/-- Witness for C9 amended, at a nonzero upstream id and at a null one. -/
theorem C9_id_prefers_truthy_upstream_witness :
    (plugin_to_dict emptyDB { id := 5, upstream_id := some 7, visible := true }).id = 7 ∧
    (plugin_to_dict emptyDB { id := 5, upstream_id := none, visible := true }).id = 5 :=
  ⟨(C9_id_prefers_truthy_upstream emptyDB _).1 7 rfl (by decide),
   (C9_id_prefers_truthy_upstream emptyDB _).2 (Or.inl rfl)⟩

/-! ## Claim C8 -/

/-- C8 counterexample: the claim says the schema declares a unique index on
`Plugin.upstream_id` and a unique index on
`(PluginVersion.plugin_id, name, hash)`.  In `models.py`, `upstream_id`
carries `index=True` but no `unique=True`, and neither table declares any
table-level unique constraint at all. -/
theorem C8_counterexample :
    Plugin_upstream_id_col.unique = false ∧
    plugin_versions_unique_constraints = [] :=
  ⟨rfl, rfl⟩

/-- C8 amended: the schema declares only a plain (non-unique) index on
`Plugin.upstream_id` and declares no unique constraint or unique index on
`(plugin_id, name, hash)` (primary keys aside, no column of either table is
unique); deduplication therefore rests on the reconciliation algorithm's
read-then-write lookups, not on the storage layer. -/
theorem C8_schema_declares_no_uniqueness :
    Plugin_upstream_id_col.index = true ∧
    Plugin_upstream_id_col.unique = false ∧
    Plugin_name_col.unique = false ∧
    plugins_unique_constraints = [] ∧
    plugin_versions_unique_constraints = [] ∧
    PluginVersion_plugin_id_col.unique = false ∧
    PluginVersion_name_col.unique = false ∧
    PluginVersion_hash_col.unique = false :=
  ⟨rfl, rfl, rfl, rfl, rfl, rfl, rfl, rfl⟩

/-! ## Claim C6 -/

/-- C6: the claim's two failure outcomes both misfire the same way.  With
no admin secret configured the code takes the branch meant to raise the
503 service-unavailable error; with a secret configured and the token
missing or different it takes the branch meant to raise 401 unauthorized.
`admin.py` never imports `status`, so the first evaluated subexpression of
EITHER `raise` — `status.HTTP_503_SERVICE_UNAVAILABLE` respectively
`status.HTTP_401_UNAUTHORIZED` — raises `NameError`, surfaced by FastAPI
as HTTP 500.  Neither the 503-equivalent nor the 401 outcome the claim
states is produced, and the two failure classes are not distinct: both
yield the identical `nameErrorUnboundStatus` outcome.  Only a matching
token passes. -/
theorem C6_admin_token_raises_NameError :
    verify_admin_token none (some "token") = .nameErrorUnboundStatus ∧
    verify_admin_token (some "") none = .nameErrorUnboundStatus ∧
    verify_admin_token none (some "token") ≠ .serviceUnavailable ∧
    verify_admin_token (some "secret") none = .nameErrorUnboundStatus ∧
    verify_admin_token (some "secret") (some "wrong") = .nameErrorUnboundStatus ∧
    verify_admin_token (some "secret") (some "") = .nameErrorUnboundStatus ∧
    verify_admin_token (some "secret") none ≠ .unauthorized ∧
    verify_admin_token (some "secret") (some "wrong") ≠ .unauthorized ∧
    verify_admin_token none (some "token") =
      verify_admin_token (some "secret") (some "wrong") ∧
    verify_admin_token (some "secret") (some "secret") = .authorized := by
  decide

/-! ## Claim C7 -/

/-- C7 counterexample: the claim's "client-visible 404-equivalent" part is
false.  On the concrete store `c7DB` (one plugin named Foo with no
versions) an unknown plugin name and a known plugin without the requested
version each produce their not-found body, yet `incrementHttpStatus` sends
both as HTTP 200, not 404: the handler RETURNS the
`({"error": ...}, 404)` tuple instead of raising, and FastAPI JSON-encodes
a returned tuple as a 200 array body. -/
theorem C7_counterexample :
    (increment_plugin_version_counter "Bar" "1.0.0" false c7DB).1 = .pluginNotFound ∧
    (increment_plugin_version_counter "Foo" "1.0.0" false c7DB).1 = .versionNotFound ∧
    incrementHttpStatus
      (increment_plugin_version_counter "Bar" "1.0.0" false c7DB).1 = 200 ∧
    incrementHttpStatus
      (increment_plugin_version_counter "Foo" "1.0.0" false c7DB).1 = 200 ∧
    (200 : Nat) ≠ 404 := by
  decide

/-- C7 (amended): when no plugin row matches the given name, or no version
row under the matched plugin has the given version name, the increment
endpoint returns a not-found error body (distinct from the success body)
and the store is returned unchanged — nothing is created and no counter
moves.  But neither miss is a 404-equivalent: both bodies travel on an
HTTP 200 response (`incrementHttpStatus`). -/
theorem C7_increment_not_found (db : DB) (pn vn : String) (isU : Bool) :
    (db.plugins.find? (fun p => p.name == some pn) = none →
      increment_plugin_version_counter pn vn isU db = (.pluginNotFound, db)) ∧
    (∀ plugin, db.plugins.find? (fun p => p.name == some pn) = some plugin →
      db.versions.find? (fun v => v.plugin_id == plugin.id && v.name == some vn) = none →
      increment_plugin_version_counter pn vn isU db = (.versionNotFound, db)) ∧
    IncrementResult.pluginNotFound ≠ .success ∧
    IncrementResult.versionNotFound ≠ .success ∧
    incrementHttpStatus .pluginNotFound = 200 ∧
    incrementHttpStatus .versionNotFound = 200 := by
  refine ⟨?_, ?_, by decide, by decide, rfl, rfl⟩
  · intro h
    simp [increment_plugin_version_counter, h]
  · intro plugin h1 h2
    simp [increment_plugin_version_counter, h1, h2]

/-- Witness for C7: an unknown plugin name and a known plugin without the
requested version both yield their not-found results on `c7DB`. -/
theorem C7_increment_not_found_witness :
    increment_plugin_version_counter "Bar" "1.0.0" false c7DB = (.pluginNotFound, c7DB) ∧
    increment_plugin_version_counter "Foo" "1.0.0" false c7DB = (.versionNotFound, c7DB) :=
  ⟨(C7_increment_not_found c7DB "Bar" "1.0.0" false).1 rfl,
   (C7_increment_not_found c7DB "Foo" "1.0.0" false).2.1 _ rfl rfl⟩

/-! ## Claim C4 -/

/-- C4: when the increment endpoint resolves a plugin by name and one of
its versions by name, it reports success and — in the same commit — bumps
exactly the pair of counters selected by `isUpdate` by exactly 1: with
`isUpdate = false` the two `downloads` counters, with `isUpdate = true` the
two `updates` counters; the other counter pair and every other row of both
tables are unchanged. -/
theorem C4_increment_success (db : DB) (pn vn : String) (isU : Bool)
    (p : Plugin) (v : PluginVersion)
    (hp : db.plugins.find? (fun q => q.name == some pn) = some p)
    (hv : db.versions.find? (fun w => w.plugin_id == p.id && w.name == some vn) = some v) :
    (increment_plugin_version_counter pn vn isU db).1 = .success ∧
    (increment_plugin_version_counter pn vn isU db).2.plugins.length = db.plugins.length ∧
    (increment_plugin_version_counter pn vn isU db).2.versions.length = db.versions.length ∧
    (∀ q ∈ db.plugins, q.id ≠ p.id →
      q ∈ (increment_plugin_version_counter pn vn isU db).2.plugins) ∧
    (∀ w ∈ db.versions, w.id ≠ v.id →
      w ∈ (increment_plugin_version_counter pn vn isU db).2.versions) ∧
    ({ p with downloads := if isU then p.downloads else p.downloads + 1,
              updates := if isU then p.updates + 1 else p.updates } : Plugin) ∈
      (increment_plugin_version_counter pn vn isU db).2.plugins ∧
    ({ v with downloads := if isU then v.downloads else v.downloads + 1,
              updates := if isU then v.updates + 1 else v.updates } : PluginVersion) ∈
      (increment_plugin_version_counter pn vn isU db).2.versions := by
  have hpm : p ∈ db.plugins := List.mem_of_find?_eq_some hp
  have hvm : v ∈ db.versions := List.mem_of_find?_eq_some hv
  cases isU
  · simp only [increment_plugin_version_counter, hp, hv, Bool.false_eq_true, if_false]
    refine ⟨by trivial, by simp, by simp, ?_, ?_, ?_, ?_⟩
    · intro q hq hne
      exact List.mem_map.mpr ⟨q, hq, by simp [hne]⟩
    · intro w hw hne
      exact List.mem_map.mpr ⟨w, hw, by simp [hne]⟩
    · exact List.mem_map.mpr ⟨p, hpm, by simp⟩
    · exact List.mem_map.mpr ⟨v, hvm, by simp⟩
  · simp only [increment_plugin_version_counter, hp, hv, if_true]
    refine ⟨by trivial, by simp, by simp, ?_, ?_, ?_, ?_⟩
    · intro q hq hne
      exact List.mem_map.mpr ⟨q, hq, by simp [hne]⟩
    · intro w hw hne
      exact List.mem_map.mpr ⟨w, hw, by simp [hne]⟩
    · exact List.mem_map.mpr ⟨p, hpm, by simp⟩
    · exact List.mem_map.mpr ⟨v, hvm, by simp⟩

/-- Witness for C4: a download increment on `c4DB` succeeds, bumps both
`downloads` counters from 3 to 4 and from 5 to 6 respectively, and leaves
both `updates` counters alone. -/
theorem C4_increment_success_witness :
    (increment_plugin_version_counter "Foo" "1.0.0" false c4DB).1 = .success ∧
    ({ id := 0, name := some "Foo", visible := true, downloads := 4, updates := 4 } : Plugin) ∈
      (increment_plugin_version_counter "Foo" "1.0.0" false c4DB).2.plugins ∧
    ({ id := 0, plugin_id := 0, name := some "1.0.0", hash := some "abc",
       downloads := 6, updates := 6 } : PluginVersion) ∈
      (increment_plugin_version_counter "Foo" "1.0.0" false c4DB).2.versions :=
  ⟨(C4_increment_success c4DB "Foo" "1.0.0" false _ _ rfl rfl).1,
   (C4_increment_success c4DB "Foo" "1.0.0" false _ _ rfl rfl).2.2.2.2.2.1,
   (C4_increment_success c4DB "Foo" "1.0.0" false _ _ rfl rfl).2.2.2.2.2.2⟩

/-! ## Claim C1: counterexample -/

/-- C1 counterexample: for the snapshot `c1Snap`, whose one entry repeats
a `(name, hash)` key, the second run is not a no-op beyond counter fields:
the version dict is built once per entry from rows committed by the first
run, so the second run routes both duplicates onto the last row with the
key and copies entry 1's `artifact` onto row 1 — a non-counter field
changes (row counts and keys are nevertheless equal). -/
theorem C1_counterexample :
    ensure_plugins_synced c1Snap emptyDB = .ok c1DB1 ∧
    ensure_plugins_synced c1Snap c1DB1 = .ok c1DB2 ∧
    c1DB1.versions.map PluginVersion.artifact ≠
      c1DB2.versions.map PluginVersion.artifact ∧
    c1DB1 ≠ c1DB2 :=
  ⟨rfl, rfl, by decide, by decide⟩

/-! ## Idempotence development: small algebraic helpers -/

theorem getOpt_self {α : Type} (x : Option α) : getOpt x x = x := by
  cases x <;> rfl

theorem getOpt_absorb {α : Type} (x y : Option α) :
    getOpt x (getOpt x y) = getOpt x y := by
  cases x <;> rfl

theorem getD_absorb {α : Type} (x : Option α) (d : α) :
    x.getD (x.getD d) = x.getD d := by
  cases x <;> rfl

theorem find?_singleton_pos {α : Type} {p : α → Bool} {x : α} (h : p x = true) :
    List.find? p [x] = some x := by
  simp [List.find?_cons, h]

theorem nodup_append_singleton {α : Type} {l : List α} {x : α}
    (hl : l.Nodup) (hx : x ∉ l) : (l ++ [x]).Nodup := by
  rw [List.nodup_append]
  exact ⟨hl, List.nodup_singleton x,
    fun a ha hb => hx (by rwa [List.mem_singleton.mp hb] at ha)⟩

theorem filter_map_comm {α : Type} {l : List α} {g : α → α} {p : α → Bool}
    (hg : ∀ a, p (g a) = p a) : (l.map g).filter p = (l.filter p).map g := by
  induction l with
  | nil => rfl
  | cons a l ih =>
    simp only [List.map_cons, List.filter_cons]
    rw [hg a]
    cases hpa : p a <;> simp [ih]

/-! ## Idempotence development: dict lookup lemmas -/

theorem dictFind_some {l : List PluginVersion} {k : Option String × Option String}
    {r : PluginVersion} (h : dictFind l k = some r) : r ∈ l ∧ vkey r = k := by
  unfold dictFind at h
  refine ⟨List.mem_reverse.mp (List.mem_of_find?_eq_some h), ?_⟩
  have hp := List.find?_some h
  simpa using hp

theorem dictFind_append_right_none {A B : List PluginVersion}
    {k : Option String × Option String}
    (hB : ∀ b ∈ B, vkey b ≠ k) : dictFind (A ++ B) k = dictFind A k := by
  unfold dictFind
  have hBnone : B.reverse.find? (fun v => vkey v == k) = none := by
    apply List.find?_eq_none.mpr
    intro b hb
    simpa using hB b (List.mem_reverse.mp hb)
  rw [List.reverse_append, find?_append_none hBnone]

theorem dictFind_append_last {A : List PluginVersion} {r : PluginVersion}
    {k : Option String × Option String} (hk : vkey r = k) :
    dictFind (A ++ [r]) k = some r := by
  unfold dictFind
  rw [List.reverse_append]
  simp [List.find?_cons, hk]

theorem dictFind_map {l : List PluginVersion} {g : PluginVersion → PluginVersion}
    {k : Option String × Option String}
    (hg : ∀ w, vkey (g w) = vkey w) :
    dictFind (l.map g) k = (dictFind l k).map g := by
  unfold dictFind
  rw [show (l.map g).reverse = l.reverse.map g from by rw [List.map_reverse]]
  exact find?_map_comm (fun a => by show (vkey (g a) == k) = _; rw [hg a])

theorem existingFor_mem {db : DB} {pid : Nat} {v : PluginVersion}
    (h : v ∈ existingFor db pid) : v ∈ db.versions ∧ v.plugin_id = pid := by
  unfold existingFor at h
  have hm := List.mem_filter.mp h
  exact ⟨hm.1, by simpa using hm.2⟩

/-! ## Idempotence development: absorption of create and update -/

theorem updatePlugin_createPlugin (item : PluginItem) (c u : Option DateTime)
    (pid : Nat) (uid : Int) :
    updatePlugin item c u (createPlugin pid uid item c u) =
      createPlugin pid uid item c u := by
  unfold updatePlugin createPlugin
  cases c <;> cases u <;>
    simp [getOpt_self, getOpt_absorb, getD_absorb, Option.getD_some]

theorem updatePlugin_updatePlugin (item : PluginItem) (c u : Option DateTime)
    (p : Plugin) :
    updatePlugin item c u (updatePlugin item c u p) = updatePlugin item c u p := by
  unfold updatePlugin
  cases c <;> cases u <;>
    simp [getOpt_self, getOpt_absorb, getD_absorb, Option.getD_some]

theorem updateVersion_createVersion (vi : VersionItem) (c : Option DateTime)
    (vid pid : Nat) :
    updateVersion vi c (createVersion vid pid vi c) = createVersion vid pid vi c := by
  unfold updateVersion createVersion
  cases c <;> simp [getOpt_self, getD_absorb]

theorem updateVersion_updateVersion (vi : VersionItem) (c : Option DateTime)
    (v : PluginVersion) :
    updateVersion vi c (updateVersion vi c v) = updateVersion vi c v := by
  unfold updateVersion
  cases c <;> simp [getOpt_absorb, getD_absorb]

/-! ## Idempotence development: reduction equations for the inner loop -/

theorem syncVersionItem_create_eq {pid : Nat} {ex : List PluginVersion}
    {db : DB} {vi : VersionItem} {c : Option DateTime}
    (hd : dictFind ex (ikey vi) = none)
    (hc : parse_iso8601 vi.created = .ok c) :
    syncVersionItem pid ex db vi =
      .ok { db with
              versions := db.versions ++ [createVersion db.nextVersionId pid vi c]
              nextVersionId := db.nextVersionId + 1 } := by
  unfold syncVersionItem
  split
  next hd2 => rw [hc, exc_ok_bind]
  next ev2 hd2 => rw [hd] at hd2; cases hd2

theorem syncVersionItem_update_eq {pid : Nat} {ex : List PluginVersion}
    {db : DB} {vi : VersionItem} {ev : PluginVersion} {c : Option DateTime}
    (hd : dictFind ex (ikey vi) = some ev)
    (hc : parse_iso8601 vi.created = .ok c) :
    syncVersionItem pid ex db vi =
      .ok { db with
              versions := db.versions.map
                (fun w => if w.id = ev.id then updateVersion vi c w else w) } := by
  unfold syncVersionItem
  split
  next hd2 => rw [hd] at hd2; cases hd2
  next ev2 hd2 =>
    rw [hd] at hd2
    injection hd2 with he
    subst he
    rw [hc, exc_ok_bind]

/-! ## Idempotence development: well-formedness preservation -/

theorem WF_empty : WF emptyDB :=
  ⟨by simp [emptyDB], by simp [emptyDB], by simp [emptyDB], by simp [emptyDB],
   by simp [emptyDB]⟩

theorem WF_dbCreate {db : DB} {uid : Int} {item : PluginItem}
    {c u : Option DateTime} (hwf : WF db) : WF (dbCreate db uid item c u) := by
  refine ⟨?_, ?_, hwf.vNodup, hwf.vLt, ?_⟩
  · show ((db.plugins ++ [createPlugin db.nextPluginId uid item c u]).map Plugin.id).Nodup
    rw [List.map_append]
    apply nodup_append_singleton hwf.pNodup
    intro hmem
    obtain ⟨p, hp, hpe⟩ := List.mem_map.mp hmem
    have hlt := hwf.pLt p hp
    rw [hpe] at hlt
    exact Nat.lt_irrefl _ hlt
  · intro p hp
    rcases List.mem_append.mp hp with h1 | h2
    · exact Nat.lt_succ_of_lt (hwf.pLt p h1)
    · rw [List.mem_singleton.mp h2]
      exact Nat.lt_succ_self _
  · intro v hv
    obtain ⟨p, hp, hpe⟩ := hwf.fk v hv
    exact ⟨p, List.mem_append_left _ hp, hpe⟩

theorem WF_dbUpdate {db : DB} {item : PluginItem} {c u : Option DateTime}
    {p : Plugin} (hwf : WF db) : WF (dbUpdate db item c u p) := by
  have hid : ∀ q : Plugin,
      ((fun q => if q.id = p.id then updatePlugin item c u q else q) q).id = q.id := by
    intro q
    show (if q.id = p.id then updatePlugin item c u q else q).id = q.id
    split <;> simp
  refine ⟨?_, ?_, hwf.vNodup, hwf.vLt, ?_⟩
  · show ((db.plugins.map fun q =>
        if q.id = p.id then updatePlugin item c u q else q).map Plugin.id).Nodup
    rw [List.map_map, show (Plugin.id ∘ fun q =>
        if q.id = p.id then updatePlugin item c u q else q) = Plugin.id from funext hid]
    exact hwf.pNodup
  · intro q2 hq2
    obtain ⟨q, hq, hqe⟩ := List.mem_map.mp hq2
    rw [← hqe, hid q]
    exact hwf.pLt q hq
  · intro v hv
    obtain ⟨q, hq, hqe⟩ := hwf.fk v hv
    exact ⟨_, List.mem_map.mpr ⟨q, hq, rfl⟩, by rw [hqe]; exact (hid q).symm⟩

theorem syncVersionItem_WF {pid : Nat} {ex : List PluginVersion} {db : DB}
    {vi : VersionItem} {dbA : DB}
    (h : syncVersionItem pid ex db vi = .ok dbA) (hwf : WF db)
    (hpid : ∃ p ∈ db.plugins, pid = p.id) :
    WF dbA ∧ dbA.plugins = db.plugins ∧ dbA.nextPluginId = db.nextPluginId ∧
      db.nextVersionId ≤ dbA.nextVersionId := by
  obtain ⟨c, hc, hshape⟩ := syncVersionItem_ok h
  rcases hshape with ⟨hd, rfl⟩ | ⟨ev, hd, rfl⟩
  · refine ⟨⟨hwf.pNodup, hwf.pLt, ?_, ?_, ?_⟩, rfl, rfl, Nat.le_succ _⟩
    · show ((db.versions ++ [createVersion db.nextVersionId pid vi c]).map
        PluginVersion.id).Nodup
      rw [List.map_append]
      apply nodup_append_singleton hwf.vNodup
      intro hmem
      obtain ⟨w, hw, hwe⟩ := List.mem_map.mp hmem
      have hlt := hwf.vLt w hw
      rw [hwe] at hlt
      exact Nat.lt_irrefl _ hlt
    · intro v hv
      rcases List.mem_append.mp hv with h1 | h2
      · exact Nat.lt_succ_of_lt (hwf.vLt v h1)
      · rw [List.mem_singleton.mp h2]
        exact Nat.lt_succ_self _
    · intro v hv
      rcases List.mem_append.mp hv with h1 | h2
      · exact hwf.fk v h1
      · obtain ⟨p, hp, hpe⟩ := hpid
        rw [List.mem_singleton.mp h2]
        exact ⟨p, hp, hpe⟩
  · have hidp : ∀ w : PluginVersion,
        ((fun w => if w.id = ev.id then updateVersion vi c w else w) w).id = w.id := by
      intro w
      show (if w.id = ev.id then updateVersion vi c w else w).id = w.id
      split <;> simp
    have hpidp : ∀ w : PluginVersion,
        ((fun w => if w.id = ev.id then updateVersion vi c w else w) w).plugin_id
          = w.plugin_id := by
      intro w
      show (if w.id = ev.id then updateVersion vi c w else w).plugin_id = w.plugin_id
      split <;> simp
    refine ⟨⟨hwf.pNodup, hwf.pLt, ?_, ?_, ?_⟩, rfl, rfl, Nat.le_refl _⟩
    · show ((db.versions.map fun w =>
        if w.id = ev.id then updateVersion vi c w else w).map PluginVersion.id).Nodup
      rw [List.map_map, show (PluginVersion.id ∘ fun w =>
        if w.id = ev.id then updateVersion vi c w else w) = PluginVersion.id from
        funext hidp]
      exact hwf.vNodup
    · intro v hv
      obtain ⟨w, hw, hwe⟩ := List.mem_map.mp hv
      rw [← hwe, hidp w]
      exact hwf.vLt w hw
    · intro v hv
      obtain ⟨w, hw, hwe⟩ := List.mem_map.mp hv
      obtain ⟨p, hp, hpe⟩ := hwf.fk w hw
      refine ⟨p, hp, ?_⟩
      rw [← hwe, hpidp w]
      exact hpe

theorem syncVersions_WF {pid : Nat} {ex : List PluginVersion} :
    ∀ {vis : List VersionItem} {db db1 : DB},
      syncVersions pid ex vis db = .ok db1 → WF db →
      (∃ p ∈ db.plugins, pid = p.id) →
      WF db1 ∧ db1.plugins = db.plugins ∧ db1.nextPluginId = db.nextPluginId ∧
        db.nextVersionId ≤ db1.nextVersionId := by
  intro vis
  induction vis with
  | nil =>
    intro db db1 h hwf hpid
    cases h
    exact ⟨hwf, rfl, rfl, Nat.le_refl _⟩
  | cons vi rest ih =>
    intro db db1 h hwf hpid
    obtain ⟨dbA, hA, hrest⟩ := syncVersions_cons_ok h
    obtain ⟨hwfA, hpl, hnp, hnv⟩ := syncVersionItem_WF hA hwf hpid
    obtain ⟨hwf1, hpl1, hnp1, hnv1⟩ := ih hrest hwfA (by rw [hpl]; exact hpid)
    exact ⟨hwf1, hpl1.trans hpl, hnp1.trans hnp, Nat.le_trans hnv hnv1⟩

theorem syncPluginItem_WF {db : DB} {item : PluginItem} {db1 : DB}
    (h : syncPluginItem db item = .ok db1) (hwf : WF db) : WF db1 := by
  rcases syncPluginItem_ok h with ⟨_, rfl⟩ | ⟨uid, hid, c, u, hc, hu, hbranch⟩
  · exact hwf
  rcases hbranch with ⟨hf, hsv⟩ | ⟨p, hf, hsv⟩
  · exact (syncVersions_WF hsv (WF_dbCreate hwf)
      ⟨createPlugin db.nextPluginId uid item c u,
        List.mem_append_right _ (List.mem_singleton_self _), rfl⟩).1
  · refine (syncVersions_WF hsv (WF_dbUpdate hwf) ?_).1
    have hp := List.mem_of_find?_eq_some hf
    refine ⟨if p.id = p.id then updatePlugin item c u p else p,
      List.mem_map.mpr ⟨p, hp, rfl⟩, ?_⟩
    split <;> simp

/-! ## Idempotence development: an absorbed store is a fixed point -/

theorem syncVersionItem_of_VFix {pid : Nat} {db : DB} {vi : VersionItem}
    (hfix : VFix pid vi db) :
    syncVersionItem pid (existingFor db pid) db vi = .ok db := by
  obtain ⟨c, hc, r, hd, hupd, huniq⟩ := hfix
  rw [syncVersionItem_update_eq hd hc]
  have hmap : db.versions.map
      (fun w => if w.id = r.id then updateVersion vi c w else w) = db.versions := by
    apply map_eq_self_of
    intro w hw
    by_cases hwid : w.id = r.id
    · rw [if_pos hwid, huniq w hw hwid]
      exact hupd
    · rw [if_neg hwid]
  rw [hmap]

theorem syncVersions_of_VFix {pid : Nat} {db : DB} :
    ∀ {vis : List VersionItem}, (∀ vi ∈ vis, VFix pid vi db) →
      syncVersions pid (existingFor db pid) vis db = .ok db := by
  intro vis
  induction vis with
  | nil => intro _; rfl
  | cons vi rest ih =>
    intro hall
    show (do
      let db1 ← syncVersionItem pid (existingFor db pid) db vi
      syncVersions pid (existingFor db pid) rest db1) = .ok db
    rw [syncVersionItem_of_VFix (hall vi (by simp)), exc_ok_bind]
    exact ih (fun w hw => hall w (by simp [hw]))

theorem syncPluginItem_of_PFix {db : DB} {item : PluginItem}
    (hfix : PFix item db) :
    syncPluginItem db item = .ok db := by
  unfold syncPluginItem
  split
  next hid => rfl
  next uid hid =>
    obtain ⟨p, hfind, ⟨c, u, hc, hu, hupd⟩, huniq, hvfix⟩ := hfix uid hid
    split
    next hf =>
      rw [hfind] at hf
      cases hf
    next p2 hf =>
      rw [hfind] at hf
      injection hf with he
      subst he
      rw [hc, exc_ok_bind, hu, exc_ok_bind]
      have hdbu : dbUpdate db item c u p = db := by
        unfold dbUpdate
        have hmap : db.plugins.map
            (fun q => if q.id = p.id then updatePlugin item c u q else q)
              = db.plugins := by
          apply map_eq_self_of
          intro q hq
          by_cases hqid : q.id = p.id
          · rw [if_pos hqid, huniq q hq hqid]
            exact hupd
          · rw [if_neg hqid]
        rw [hmap]
      rw [hdbu]
      exact syncVersions_of_VFix hvfix

theorem ensure_of_PFix : ∀ {s : List PluginItem} {db : DB},
    (∀ item ∈ s, PFix item db) →
    ensure_plugins_synced s db = .ok db := by
  intro s
  induction s with
  | nil => intro db _; rfl
  | cons item rest ih =>
    intro db hall
    show (do
      let db1 ← syncPluginItem db item
      ensure_plugins_synced rest db1) = .ok db
    rw [syncPluginItem_of_PFix (hall item (by simp)), exc_ok_bind]
    exact ih (fun it hit => hall it (by simp [hit]))

/-! ## Idempotence development: field transport of the in-place update -/

theorem gev_id (vj : VersionItem) (c : Option DateTime) (ev w : PluginVersion) :
    (if w.id = ev.id then updateVersion vj c w else w).id = w.id := by
  split <;> simp

theorem gev_plugin_id (vj : VersionItem) (c : Option DateTime) (ev w : PluginVersion) :
    (if w.id = ev.id then updateVersion vj c w else w).plugin_id = w.plugin_id := by
  split <;> simp

theorem gev_vkey (vj : VersionItem) (c : Option DateTime) (ev w : PluginVersion) :
    vkey (if w.id = ev.id then updateVersion vj c w else w) = vkey w := by
  split <;> simp

/-- Decomposition of the rows of one plugin in a mid-run state. -/
theorem existingFor_decomp {db0 : DB} {pid : Nat} {db : DB}
    {G : PluginVersion → PluginVersion} {added : List PluginVersion}
    (hdecomp : db.versions = db0.versions.map G ++ added)
    (hG : ∀ w, (G w).plugin_id = w.plugin_id)
    (hadd : ∀ r ∈ added, r.plugin_id = pid) :
    existingFor db pid = (existingFor db0 pid).map G ++ added := by
  unfold existingFor
  rw [hdecomp, List.filter_append]
  congr 1
  · exact filter_map_comm (fun a => by simp only [hG a])
  · exact List.filter_eq_self.mpr (fun r hr => by simp [hadd r hr])

/-- The same decomposition seen from a different plugin: the appended rows
belong to `pid2`, so they vanish from the filter. -/
theorem existingFor_decomp_other {db0 : DB} {pid pid2 : Nat} {db : DB}
    {G : PluginVersion → PluginVersion} {added : List PluginVersion}
    (hdecomp : db.versions = db0.versions.map G ++ added)
    (hG : ∀ w, (G w).plugin_id = w.plugin_id)
    (hadd : ∀ r ∈ added, r.plugin_id = pid2) (hne : pid2 ≠ pid) :
    existingFor db pid = (existingFor db0 pid).map G := by
  unfold existingFor
  rw [hdecomp, List.filter_append]
  rw [show added.filter (fun v => v.plugin_id == pid) = [] from
    List.filter_eq_nil_iff.mpr (fun r hr => by simp [hadd r hr, hne])]
  rw [List.append_nil]
  exact filter_map_comm (fun a => by simp only [hG a])

/-! ## Idempotence development: one inner-loop step establishes absorption -/

theorem syncVersionItem_establishes {db0 : DB} {pid : Nat}
    {K : List (Option String × Option String)} {db : DB} {vj : VersionItem}
    {db2 : DB} (hwf : WF db)
    (h : syncVersionItem pid (existingFor db0 pid) db vj = .ok db2)
    (hph : Phase db0 pid K db) (hK : ikey vj ∉ K) :
    VFix pid vj db2 := by
  obtain ⟨G, added, hdecomp, hGpres, haddedP, hnext⟩ := hph
  obtain ⟨c, hc, hshape⟩ := syncVersionItem_ok h
  rcases hshape with ⟨hd, rfl⟩ | ⟨ev, hd, rfl⟩
  · -- dict miss: the fresh row absorbs the entry
    refine ⟨c, hc, createVersion db.nextVersionId pid vj c, ?_,
      updateVersion_createVersion vj c _ _, ?_⟩
    · show dictFind ((db.versions ++ [createVersion db.nextVersionId pid vj c]).filter
        (fun v => v.plugin_id == pid)) (ikey vj) = _
      rw [List.filter_append,
        show [createVersion db.nextVersionId pid vj c].filter
          (fun v => v.plugin_id == pid) = [createVersion db.nextVersionId pid vj c] from
          by simp [createVersion]]
      exact dictFind_append_last rfl
    · intro w hw hwid
      rcases List.mem_append.mp hw with h1 | h2
      · have hlt := hwf.vLt w h1
        rw [hwid] at hlt
        exact absurd hlt (Nat.lt_irrefl _)
      · exact List.mem_singleton.mp h2
  · -- dict hit against the stale dict: the updated row absorbs the entry
    obtain ⟨hevmem, hevkey⟩ := dictFind_some hd
    obtain ⟨hevdb0, hevpid⟩ := existingFor_mem hevmem
    have hGev_mem : G ev ∈ db.versions := by
      rw [hdecomp]
      exact List.mem_append_left _ (List.mem_map_of_mem G hevdb0)
    have hGev_id : (G ev).id = ev.id := (hGpres ev).1
    refine ⟨c, hc, updateVersion vj c (G ev), ?_,
      updateVersion_updateVersion vj c (G ev), ?_⟩
    · show dictFind ((db.versions.map fun w =>
        if w.id = ev.id then updateVersion vj c w else w).filter
        (fun v => v.plugin_id == pid)) (ikey vj) = _
      rw [filter_map_comm (fun a => by simp only [gev_plugin_id])]
      rw [show db.versions.filter (fun v => v.plugin_id == pid) = existingFor db pid from rfl]
      rw [existingFor_decomp hdecomp (fun w => (hGpres w).2.1)
        (fun r hr => (haddedP r hr).1)]
      rw [dictFind_map (fun w => by simp only [gev_vkey])]
      rw [dictFind_append_right_none
        (fun b hb he => hK (by rw [← he]; exact (haddedP b hb).2.1))]
      rw [dictFind_map (fun w => (hGpres w).2.2)]
      rw [hd]
      show some (if (G ev).id = ev.id then updateVersion vj c (G ev) else G ev) = _
      rw [if_pos hGev_id]
    · intro w hw hwid
      obtain ⟨w0, hw0, hw0e⟩ := List.mem_map.mp hw
      have hw0id : w0.id = (G ev).id := by
        have h1 : w.id = w0.id := by
          rw [← hw0e]
          exact gev_id vj c ev w0
        have h2 : (updateVersion vj c (G ev)).id = (G ev).id := by simp
        rw [← h1, hwid, h2]
      have hw0eq : w0 = G ev := nodup_map_inj hwf.vNodup hw0 hGev_mem hw0id
      rw [← hw0e, hw0eq]
      show (if (G ev).id = ev.id then updateVersion vj c (G ev) else G ev) = _
      rw [if_pos hGev_id]

/-- Absorption facts depend only on the versions table. -/
theorem VFix_congr_versions {pid : Nat} {vi : VersionItem} {dbA dbB : DB}
    (hv : dbA.versions = dbB.versions) (h : VFix pid vi dbA) : VFix pid vi dbB := by
  obtain ⟨c, hc, r, hd, hupd, huniq⟩ := h
  refine ⟨c, hc, r, ?_, hupd, ?_⟩
  · unfold existingFor at hd ⊢
    rw [← hv]
    exact hd
  · rw [← hv]
    exact huniq

/-! ## Idempotence development: one inner-loop step preserves absorption -/

theorem syncVersionItem_preserves {db0 : DB} {pid2 : Nat}
    {K : List (Option String × Option String)} {db : DB} {vj : VersionItem}
    {db2 : DB} {pid : Nat} {vi : VersionItem}
    (hwf : WF db)
    (h : syncVersionItem pid2 (existingFor db0 pid2) db vj = .ok db2)
    (hph : Phase db0 pid2 K db)
    (hside : pid ≠ pid2 ∨ ikey vj ≠ ikey vi)
    (hfix : VFix pid vi db) : VFix pid vi db2 := by
  obtain ⟨G, added, hdecomp, hGpres, haddedP, hnext⟩ := hph
  obtain ⟨c, hc, r, hdict, hupd, huniq⟩ := hfix
  obtain ⟨hrmem0, hrkey⟩ := dictFind_some hdict
  obtain ⟨hrdb, hrpid⟩ := existingFor_mem hrmem0
  obtain ⟨c2, hc2, hshape⟩ := syncVersionItem_ok h
  rcases hshape with ⟨hd, rfl⟩ | ⟨ev, hd, rfl⟩
  · -- a row was appended for pid2
    refine ⟨c, hc, r, ?_, hupd, ?_⟩
    · show dictFind ((db.versions ++ [createVersion db.nextVersionId pid2 vj c2]).filter
        (fun v => v.plugin_id == pid)) (ikey vi) = some r
      rw [List.filter_append]
      by_cases hpid : pid2 = pid
      · have hkey : ikey vj ≠ ikey vi := by
          rcases hside with hne | hk
          · exact absurd hpid.symm hne
          · exact hk
        rw [show [createVersion db.nextVersionId pid2 vj c2].filter
            (fun v => v.plugin_id == pid) = [createVersion db.nextVersionId pid2 vj c2]
            from by simp [createVersion, hpid]]
        rw [dictFind_append_right_none (fun b hb2 => by
          rw [List.mem_singleton.mp hb2]
          exact hkey)]
        exact hdict
      · rw [show [createVersion db.nextVersionId pid2 vj c2].filter
            (fun v => v.plugin_id == pid) = [] from
            List.filter_eq_nil_iff.mpr (fun b hb2 => by
              rw [List.mem_singleton.mp hb2]
              simp [createVersion, hpid])]
        rw [List.append_nil]
        exact hdict
    · intro w hw hwid
      rcases List.mem_append.mp hw with h1 | h2
      · exact huniq w h1 hwid
      · exfalso
        have hw_eq := List.mem_singleton.mp h2
        rw [hw_eq] at hwid
        have hr_lt := hwf.vLt r hrdb
        rw [← hwid] at hr_lt
        exact Nat.lt_irrefl _ hr_lt
  · -- an existing row of pid2 was updated
    obtain ⟨hevmem, hevkey⟩ := dictFind_some hd
    obtain ⟨hevdb0, hevpid⟩ := existingFor_mem hevmem
    have hGev_mem : G ev ∈ db.versions := by
      rw [hdecomp]
      exact List.mem_append_left _ (List.mem_map_of_mem G hevdb0)
    have hGev_id : (G ev).id = ev.id := (hGpres ev).1
    have hr_ne : r.id ≠ ev.id := by
      intro he
      have hreq : r = G ev :=
        nodup_map_inj hwf.vNodup hrdb hGev_mem (by rw [he, hGev_id])
      rcases hside with hne | hkey
      · apply hne
        rw [← hrpid, hreq, (hGpres ev).2.1, hevpid]
      · apply hkey
        rw [← hevkey, ← (hGpres ev).2.2, ← hreq, hrkey]
    refine ⟨c, hc, r, ?_, hupd, ?_⟩
    · show dictFind ((db.versions.map fun w =>
        if w.id = ev.id then updateVersion vj c2 w else w).filter
        (fun v => v.plugin_id == pid)) (ikey vi) = some r
      rw [filter_map_comm (fun a => by simp only [gev_plugin_id])]
      rw [show db.versions.filter (fun v => v.plugin_id == pid)
          = existingFor db pid from rfl]
      rw [dictFind_map (fun w => by simp only [gev_vkey])]
      rw [hdict]
      show some (if r.id = ev.id then updateVersion vj c2 r else r) = some r
      rw [if_neg hr_ne]
    · intro w hw hwid
      obtain ⟨w0, hw0, hw0e⟩ := List.mem_map.mp hw
      have hwid0 : w0.id = r.id := by
        rw [← hwid, ← hw0e]
        exact (gev_id vj c2 ev w0).symm
      have hw0r : w0 = r := huniq w0 hw0 hwid0
      rw [← hw0e, hw0r]
      show (if r.id = ev.id then updateVersion vj c2 r else r) = r
      rw [if_neg hr_ne]

/-! ## Idempotence development: one inner-loop step maintains the phase -/

theorem syncVersionItem_Phase {db0 : DB} {pid2 : Nat}
    {K : List (Option String × Option String)} {db : DB} {vj : VersionItem}
    {db2 : DB} (hwf0 : WF db0)
    (h : syncVersionItem pid2 (existingFor db0 pid2) db vj = .ok db2)
    (hph : Phase db0 pid2 K db) :
    Phase db0 pid2 (K ++ [ikey vj]) db2 := by
  obtain ⟨G, added, hdecomp, hGpres, haddedP, hnext⟩ := hph
  obtain ⟨c, hc, hshape⟩ := syncVersionItem_ok h
  rcases hshape with ⟨hd, rfl⟩ | ⟨ev, hd, rfl⟩
  · refine ⟨G, added ++ [createVersion db.nextVersionId pid2 vj c], ?_, hGpres, ?_, ?_⟩
    · show db.versions ++ [createVersion db.nextVersionId pid2 vj c] = _
      rw [hdecomp, List.append_assoc]
    · intro r hr
      rcases List.mem_append.mp hr with h1 | h2
      · obtain ⟨hp, hk, hi⟩ := haddedP r h1
        exact ⟨hp, List.mem_append_left _ hk, hi⟩
      · rw [List.mem_singleton.mp h2]
        refine ⟨rfl, ?_, hnext⟩
        apply List.mem_append_right
        show ikey vj ∈ [ikey vj]
        exact List.mem_singleton_self _
    · exact Nat.le_succ_of_le hnext
  · obtain ⟨hevmem, hevkey⟩ := dictFind_some hd
    obtain ⟨hevdb0, hevpid⟩ := existingFor_mem hevmem
    have hev_lt : ev.id < db0.nextVersionId := hwf0.vLt ev hevdb0
    have hadded_id : added.map
        (fun w => if w.id = ev.id then updateVersion vj c w else w) = added := by
      apply map_eq_self_of
      intro w hw
      have hge := (haddedP w hw).2.2
      have hne : ¬w.id = ev.id := by
        intro he
        rw [he] at hge
        exact Nat.lt_irrefl _ (Nat.lt_of_lt_of_le hev_lt hge)
      rw [if_neg hne]
    refine ⟨(fun w => if w.id = ev.id then updateVersion vj c w else w) ∘ G,
      added, ?_, ?_, ?_, hnext⟩
    · show db.versions.map (fun w => if w.id = ev.id then updateVersion vj c w else w) = _
      rw [hdecomp, List.map_append, hadded_id, List.map_map]
    · intro w
      refine ⟨?_, ?_, ?_⟩
      · show (if (G w).id = ev.id then updateVersion vj c (G w) else G w).id = w.id
        rw [gev_id]
        exact (hGpres w).1
      · show (if (G w).id = ev.id then updateVersion vj c (G w) else G w).plugin_id
          = w.plugin_id
        rw [gev_plugin_id]
        exact (hGpres w).2.1
      · show vkey (if (G w).id = ev.id then updateVersion vj c (G w) else G w) = vkey w
        rw [gev_vkey]
        exact (hGpres w).2.2
    · intro r hr
      obtain ⟨hp, hk, hi⟩ := haddedP r hr
      exact ⟨hp, List.mem_append_left _ hk, hi⟩

/-! ## Idempotence development: a whole inner-loop run -/

theorem Phase_init (db0 : DB) (pid : Nat) : Phase db0 pid [] db0 :=
  ⟨id, [], by simp, fun w => ⟨rfl, rfl, rfl⟩, by simp, Nat.le_refl _⟩

/-- One whole run of the inner loop: well-formedness and the phase are
maintained, every processed entry ends up absorbed, and absorption facts
of rows the run cannot touch (another plugin, or an untouched key) are
preserved. -/
theorem syncVersions_master {db0 : DB} {pid2 : Nat} (hwf0 : WF db0) :
    ∀ {vis : List VersionItem} {K : List (Option String × Option String)}
      {db db2 : DB},
      syncVersions pid2 (existingFor db0 pid2) vis db = .ok db2 →
      Phase db0 pid2 K db → WF db →
      (∃ p ∈ db.plugins, pid2 = p.id) →
      (vis.map ikey).Nodup → (∀ vj ∈ vis, ikey vj ∉ K) →
      WF db2 ∧ db2.plugins = db.plugins ∧
      (∀ vi ∈ vis, VFix pid2 vi db2) ∧
      (∀ pid vi, (pid ≠ pid2 ∨ ∀ vj ∈ vis, ikey vj ≠ ikey vi) →
        VFix pid vi db → VFix pid vi db2) := by
  intro vis
  induction vis with
  | nil =>
    intro K db db2 h hph hwf hpid hnod hKall
    cases h
    exact ⟨hwf, rfl, by simp, fun pid vi _ hfix => hfix⟩
  | cons vj rest ih =>
    intro K db db2 h hph hwf hpid hnod hKall
    obtain ⟨dbA, hA, hrest⟩ := syncVersions_cons_ok h
    obtain ⟨hwfA, hplA, _, _⟩ := syncVersionItem_WF hA hwf hpid
    have hnod2 : (ikey vj :: rest.map ikey).Nodup := by simpa using hnod
    have hphA : Phase db0 pid2 (K ++ [ikey vj]) dbA :=
      syncVersionItem_Phase hwf0 hA hph
    have hfixA : VFix pid2 vj dbA :=
      syncVersionItem_establishes hwf hA hph (hKall vj (by simp))
    have hKrest : ∀ w ∈ rest, ikey w ∉ K ++ [ikey vj] := by
      intro w hw hmem
      rcases List.mem_append.mp hmem with h1 | h2
      · exact hKall w (by simp [hw]) h1
      · have he : ikey w = ikey vj := List.mem_singleton.mp h2
        exact (List.nodup_cons.mp hnod2).1 (he ▸ List.mem_map_of_mem ikey hw)
    obtain ⟨hwf2, hpl2, hEst, hPres⟩ :=
      ih hrest hphA hwfA (by rw [hplA]; exact hpid)
        (List.nodup_cons.mp hnod2).2 hKrest
    refine ⟨hwf2, hpl2.trans hplA, ?_, ?_⟩
    · intro vi hvi
      rcases List.mem_cons.mp hvi with rfl | hvi2
      · refine hPres pid2 vi (Or.inr ?_) hfixA
        intro w hw he
        exact (List.nodup_cons.mp hnod2).1 (he ▸ List.mem_map_of_mem ikey hw)
      · exact hEst vi hvi2
    · intro pid vi hside hfix
      rcases hside with hne | hkeys
      · exact hPres pid vi (Or.inl hne)
          (syncVersionItem_preserves hwf hA hph (Or.inl hne) hfix)
      · exact hPres pid vi (Or.inr (fun w hw => hkeys w (by simp [hw])))
          (syncVersionItem_preserves hwf hA hph (Or.inr (hkeys vj (by simp))) hfix)

/-! ## Idempotence development: one outer-loop iteration -/

theorem hq_upstream (item : PluginItem) (c u : Option DateTime) (p q : Plugin) :
    (if q.id = p.id then updatePlugin item c u q else q).upstream_id = q.upstream_id := by
  split <;> simp

/-- Processing one snapshot entry (with duplicate-free version keys)
leaves the store having absorbed that entry. -/
theorem syncPluginItem_establishes {db : DB} {item : PluginItem} {db1 : DB}
    (hwf : WF db) (h : syncPluginItem db item = .ok db1)
    (hkeys : (item.versions.map ikey).Nodup) :
    PFix item db1 := by
  rcases syncPluginItem_ok h with ⟨hid, rfl⟩ | ⟨uid, hid, c, u, hc, hu, hbranch⟩
  · intro uid hid2
    rw [hid] at hid2
    cases hid2
  rcases hbranch with ⟨hf, hsv⟩ | ⟨p, hf, hsv⟩
  · -- create path
    have hwfC : WF (dbCreate db uid item c u) := WF_dbCreate hwf
    obtain ⟨hwf1, hpl1, hEst, _⟩ := syncVersions_master hwfC hsv
      (Phase_init (dbCreate db uid item c u) db.nextPluginId) hwfC
      ⟨createPlugin db.nextPluginId uid item c u,
        List.mem_append_right _ (List.mem_singleton_self _), rfl⟩
      hkeys (by simp)
    intro uid2 hid2
    rw [hid] at hid2
    injection hid2 with he
    subst he
    refine ⟨createPlugin db.nextPluginId uid item c u, ?_,
      ⟨c, u, hc, hu, updatePlugin_createPlugin item c u _ _⟩, ?_, ?_⟩
    · rw [hpl1]
      show (db.plugins ++ [createPlugin db.nextPluginId uid item c u]).find?
        (fun q => q.upstream_id == some uid) = _
      rw [find?_append_none hf]
      exact find?_singleton_pos (by simp [createPlugin])
    · intro q hq hqid
      rw [hpl1] at hq
      rcases List.mem_append.mp hq with h1 | h2
      · exfalso
        have hlt := hwf.pLt q h1
        rw [hqid] at hlt
        exact Nat.lt_irrefl _ hlt
      · exact List.mem_singleton.mp h2
    · intro vi hvi
      exact hEst vi hvi
  · -- update path
    have hwfU : WF (dbUpdate db item c u p) := WF_dbUpdate hwf
    have hpmem := List.mem_of_find?_eq_some hf
    obtain ⟨hwf1, hpl1, hEst, _⟩ := syncVersions_master hwfU hsv
      (Phase_init (dbUpdate db item c u p) p.id) hwfU
      ⟨(fun q => if q.id = p.id then updatePlugin item c u q else q) p,
        List.mem_map.mpr ⟨p, hpmem, rfl⟩, by
          show p.id = (if p.id = p.id then updatePlugin item c u p else p).id
          rw [if_pos rfl]
          simp⟩
      hkeys (by simp)
    intro uid2 hid2
    rw [hid] at hid2
    injection hid2 with he
    subst he
    refine ⟨updatePlugin item c u p, ?_,
      ⟨c, u, hc, hu, updatePlugin_updatePlugin item c u p⟩, ?_, ?_⟩
    · rw [hpl1]
      show (db.plugins.map fun q =>
        if q.id = p.id then updatePlugin item c u q else q).find?
        (fun q => q.upstream_id == some uid) = _
      rw [find?_map_comm (fun a => by simp only [hq_upstream])]
      rw [hf]
      show some (if p.id = p.id then updatePlugin item c u p else p) = _
      rw [if_pos rfl]
    · intro q2 hq2 hq2id
      rw [hpl1] at hq2
      obtain ⟨q0, hq0, hq0e⟩ := List.mem_map.mp hq2
      have hq0id : q0.id = p.id := by
        have h1 : q2.id = q0.id := by
          rw [← hq0e]
          show (if q0.id = p.id then updatePlugin item c u q0 else q0).id = q0.id
          split <;> simp
        have h2 : (updatePlugin item c u p).id = p.id := by simp
        rw [← h1, hq2id, h2]
      have hq0p : q0 = p := nodup_map_inj hwf.pNodup hq0 hpmem hq0id
      rw [← hq0e, hq0p]
      show (if p.id = p.id then updatePlugin item c u p else p) = _
      rw [if_pos rfl]
    · intro vi hvi
      exact hEst vi hvi

/-- Processing a snapshot entry with a different upstream id preserves the
absorption of `item`. -/
theorem syncPluginItem_preserves_PFix {db : DB} {other : PluginItem}
    {db1 : DB} {item : PluginItem}
    (hwf : WF db) (h : syncPluginItem db other = .ok db1)
    (hkeys2 : (other.versions.map ikey).Nodup)
    (hdiff : ∀ uid uid2, item.id = some uid → other.id = some uid2 → uid ≠ uid2)
    (hfix : PFix item db) : PFix item db1 := by
  rcases syncPluginItem_ok h with ⟨_, rfl⟩ | ⟨uid2, hid2, c, u, hc, hu, hbranch⟩
  · exact hfix
  intro uid hiditem
  obtain ⟨p, hfind, hfixp, huniq, hvfix⟩ := hfix uid hiditem
  have hne : uid ≠ uid2 := hdiff uid uid2 hiditem hid2
  have hpmem := List.mem_of_find?_eq_some hfind
  have hpup : p.upstream_id = some uid := by simpa using List.find?_some hfind
  rcases hbranch with ⟨hf, hsv⟩ | ⟨q2, hf, hsv⟩
  · -- other creates a fresh plugin
    have hwfC : WF (dbCreate db uid2 other c u) := WF_dbCreate hwf
    obtain ⟨hwf1, hpl1, _, hPres⟩ := syncVersions_master hwfC hsv
      (Phase_init (dbCreate db uid2 other c u) db.nextPluginId) hwfC
      ⟨createPlugin db.nextPluginId uid2 other c u,
        List.mem_append_right _ (List.mem_singleton_self _), rfl⟩
      hkeys2 (by simp)
    have hpid_ne : p.id ≠ db.nextPluginId := by
      intro he
      have hlt := hwf.pLt p hpmem
      rw [he] at hlt
      exact Nat.lt_irrefl _ hlt
    refine ⟨p, ?_, hfixp, ?_, ?_⟩
    · rw [hpl1]
      show (db.plugins ++ [createPlugin db.nextPluginId uid2 other c u]).find?
        (fun q => q.upstream_id == some uid) = _
      exact find?_append_some hfind
    · intro q hq hqid
      rw [hpl1] at hq
      rcases List.mem_append.mp hq with h1 | h2
      · exact huniq q h1 hqid
      · exfalso
        have hlt := hwf.pLt p hpmem
        rw [List.mem_singleton.mp h2] at hqid
        rw [← hqid] at hlt
        exact Nat.lt_irrefl _ hlt
    · intro vi hvi
      exact hPres p.id vi (Or.inl hpid_ne)
        (VFix_congr_versions rfl (hvfix vi hvi))
  · -- other updates its own plugin
    have hq2mem := List.mem_of_find?_eq_some hf
    have hq2up : q2.upstream_id = some uid2 := by simpa using List.find?_some hf
    have hpq2 : p.id ≠ q2.id := by
      intro he
      have hpe : p = q2 := nodup_map_inj hwf.pNodup hpmem hq2mem he
      have h2 : some uid = some uid2 := by rw [← hpup, hpe, hq2up]
      injection h2 with h3
      exact hne h3
    have hwfU : WF (dbUpdate db other c u q2) := WF_dbUpdate hwf
    obtain ⟨hwf1, hpl1, _, hPres⟩ := syncVersions_master hwfU hsv
      (Phase_init (dbUpdate db other c u q2) q2.id) hwfU
      ⟨(fun q => if q.id = q2.id then updatePlugin other c u q else q) q2,
        List.mem_map.mpr ⟨q2, hq2mem, rfl⟩, by
          show q2.id = (if q2.id = q2.id then updatePlugin other c u q2 else q2).id
          rw [if_pos rfl]
          simp⟩
      hkeys2 (by simp)
    refine ⟨p, ?_, hfixp, ?_, ?_⟩
    · rw [hpl1]
      show (db.plugins.map fun q =>
        if q.id = q2.id then updatePlugin other c u q else q).find?
        (fun q => q.upstream_id == some uid) = _
      rw [find?_map_comm (fun a => by simp only [hq_upstream])]
      rw [hfind]
      show some (if p.id = q2.id then updatePlugin other c u p else p) = some p
      rw [if_neg hpq2]
    · intro q hq hqid
      rw [hpl1] at hq
      obtain ⟨q0, hq0, hq0e⟩ := List.mem_map.mp hq
      have hq0id : q0.id = p.id := by
        have h1 : q.id = q0.id := by
          rw [← hq0e]
          show (if q0.id = q2.id then updatePlugin other c u q0 else q0).id = q0.id
          split <;> simp
        rw [← h1, hqid]
      have hq0p : q0 = p := huniq q0 hq0 hq0id
      rw [← hq0e, hq0p]
      show (if p.id = q2.id then updatePlugin other c u p else p) = p
      rw [if_neg hpq2]
    · intro vi hvi
      exact hPres p.id vi (Or.inl hpq2)
        (VFix_congr_versions rfl (hvfix vi hvi))

/-! ## Idempotence development: the whole outer loop -/

theorem ensure_preserves_PFix {item : PluginItem} :
    ∀ {rest : List PluginItem} {db db1 : DB},
      WF db → PFix item db →
      ensure_plugins_synced rest db = .ok db1 →
      (∀ o ∈ rest, ∀ uid uid2, item.id = some uid → o.id = some uid2 → uid ≠ uid2) →
      (∀ o ∈ rest, (o.versions.map ikey).Nodup) →
      PFix item db1 := by
  intro rest
  induction rest with
  | nil =>
    intro db db1 _ hfix h _ _
    cases h
    exact hfix
  | cons o rest ih =>
    intro db db1 hwf hfix h hdiff hkeys
    obtain ⟨dbA, hA, hrest⟩ := ensure_cons_ok h
    exact ih (syncPluginItem_WF hA hwf)
      (syncPluginItem_preserves_PFix hwf hA (hkeys o (by simp)) (hdiff o (by simp)) hfix)
      hrest
      (fun o2 ho2 => hdiff o2 (by simp [ho2]))
      (fun o2 ho2 => hkeys o2 (by simp [ho2]))

/-- The first run of reconciliation over a duplicate-free snapshot leaves a
well-formed store that has absorbed every snapshot entry. -/
theorem ensure_establishes :
    ∀ {s : List PluginItem} {db db1 : DB},
      WF db → ensure_plugins_synced s db = .ok db1 →
      (s.filterMap PluginItem.id).Nodup →
      (∀ item ∈ s, (item.versions.map ikey).Nodup) →
      WF db1 ∧ ∀ item ∈ s, PFix item db1 := by
  intro s
  induction s with
  | nil =>
    intro db db1 hwf h _ _
    cases h
    exact ⟨hwf, by simp⟩
  | cons item rest ih =>
    intro db db1 hwf h hids hkeys
    obtain ⟨dbA, hA, hrest⟩ := ensure_cons_ok h
    have hwfA := syncPluginItem_WF hA hwf
    have hfixA := syncPluginItem_establishes hwf hA (hkeys item (by simp))
    have hids_rest : (rest.filterMap PluginItem.id).Nodup := by
      rw [List.filterMap_cons] at hids
      cases hitem : item.id with
      | none => rwa [hitem] at hids
      | some u =>
        rw [hitem] at hids
        exact (List.nodup_cons.mp hids).2
    have hdiff : ∀ o ∈ rest, ∀ uid uid2,
        item.id = some uid → o.id = some uid2 → uid ≠ uid2 := by
      intro o ho uid uid2 hidi hido he
      rw [List.filterMap_cons, hidi] at hids
      apply (List.nodup_cons.mp hids).1
      rw [he]
      exact List.mem_filterMap.mpr ⟨o, ho, by rw [hido]⟩
    obtain ⟨hwf1, hrest_fix⟩ :=
      ih hwfA hrest hids_rest (fun it hit => hkeys it (by simp [hit]))
    refine ⟨hwf1, ?_⟩
    intro it hit
    rcases List.mem_cons.mp hit with rfl | hit2
    · exact ensure_preserves_PFix hwfA hfixA hrest hdiff
        (fun o ho => hkeys o (by simp [ho]))
    · exact hrest_fix it hit2

/-! ## Claim C1: amended theorem -/

/-- C1 amended: for every snapshot whose entries carry pairwise-distinct
upstream ids and whose version lists have pairwise-distinct `(name, hash)`
keys within each entry, running `ensure_plugins_synced` twice from the
empty store is exactly the same as running it once: the second run is the
identity on the store (so counts, keys, and even the counter fields are
unchanged — re-assignment writes back the same values).  If the first run
fails, the composition fails identically and nothing is committed. -/
theorem C1_sync_idempotent (s : List PluginItem)
    (hids : (s.filterMap PluginItem.id).Nodup)
    (hkeys : ∀ item ∈ s, (item.versions.map ikey).Nodup) :
    (ensure_plugins_synced s emptyDB).bind (ensure_plugins_synced s) =
      ensure_plugins_synced s emptyDB := by
  cases h : ensure_plugins_synced s emptyDB with
  | error e => rfl
  | ok db1 =>
    obtain ⟨hwf1, hfix⟩ := ensure_establishes WF_empty h hids hkeys
    show ensure_plugins_synced s db1 = .ok db1
    exact ensure_of_PFix hfix

/-- Witness for C1 amended: a concrete duplicate-free snapshot with two
plugins and two versions reconciles idempotently from the empty store. -/
theorem C1_sync_idempotent_witness :
    (ensure_plugins_synced c1GoodSnap emptyDB).bind (ensure_plugins_synced c1GoodSnap) =
      ensure_plugins_synced c1GoodSnap emptyDB :=
  C1_sync_idempotent c1GoodSnap (by decide) (by decide)

/-! ## Claim C3: per-row frame lemmas

The claim is about each matching snapshot entry: a stored plugin keeps its
`description` when the entries that MATCH IT (by upstream id) omit one,
regardless of what entries of other plugins carry; a stored version keeps
its `artifact` when the matching entries of its OWNING plugin omit one for
its `(name, hash)` key.  The lemmas below track one stored row through the
loop: an entry can only write to a row it found by upstream id (plugins)
or through the owning plugin's version dict (versions), so rows whose
matching entries omit the field survive with the field intact. -/

theorem syncPluginItem_next_mono {db : DB} {item : PluginItem} {db1 : DB}
    (h : syncPluginItem db item = .ok db1) :
    db.nextPluginId ≤ db1.nextPluginId := by
  rcases syncPluginItem_ok h with ⟨_, rfl⟩ | ⟨uid, hid, c, u, hc, hu, hbranch⟩
  · exact Nat.le_refl _
  rcases hbranch with ⟨hf, hsv⟩ | ⟨q, hf, hsv⟩
  · rw [(syncVersions_plugins hsv).2]
    exact Nat.le_succ _
  · rw [(syncVersions_plugins hsv).2]
    exact Nat.le_refl _

/-- One outer-loop iteration keeps the id, upstream id and description of a
stored row whenever the entry, IF it matches that row's upstream id, omits
`description`: the update path only touches the row it found by upstream
id (unique by `WF`), and there `dict.get` keeps the current value. -/
theorem syncPluginItem_desc_shadow {db : DB} {item : PluginItem} {db1 : DB}
    {pid : Nat} {up : Option Int} {desc : Option String}
    (hwf : WF db) (h : syncPluginItem db item = .ok db1)
    (hmatch : ∀ uid : Int, item.id = some uid → up = some uid →
      item.description = none)
    (hsh : ∃ p2 ∈ db.plugins, p2.id = pid ∧ p2.upstream_id = up ∧
      p2.description = desc) :
    ∃ p2 ∈ db1.plugins, p2.id = pid ∧ p2.upstream_id = up ∧
      p2.description = desc := by
  obtain ⟨p2, hp2, hid2, hup2, hdesc2⟩ := hsh
  rcases syncPluginItem_ok h with ⟨_, rfl⟩ | ⟨uid, hid, c, u, hc, hu, hbranch⟩
  · exact ⟨p2, hp2, hid2, hup2, hdesc2⟩
  rcases hbranch with ⟨hf, hsv⟩ | ⟨q, hf, hsv⟩
  · refine ⟨p2, ?_, hid2, hup2, hdesc2⟩
    rw [(syncVersions_plugins hsv).1]
    exact List.mem_append_left _ hp2
  · have hqmem := List.mem_of_find?_eq_some hf
    have hqup : q.upstream_id = some uid := by simpa using List.find?_some hf
    by_cases hqid : p2.id = q.id
    · have hq2 : q = p2 := nodup_map_inj hwf.pNodup hqmem hp2 hqid.symm
      have hupuid : up = some uid := by
        rw [hq2, hup2] at hqup
        exact hqup
      have hdnone : item.description = none := hmatch uid hid hupuid
      refine ⟨updatePlugin item c u p2, ?_, ?_, ?_, ?_⟩
      · rw [(syncVersions_plugins hsv).1]
        refine List.mem_map.mpr ⟨p2, hp2, ?_⟩
        show (if p2.id = q.id then updatePlugin item c u p2 else p2) =
          updatePlugin item c u p2
        rw [if_pos hqid]
      · simp [hid2]
      · simp [hup2]
      · show getOpt item.description p2.description = desc
        rw [hdnone]
        exact hdesc2
    · refine ⟨p2, ?_, hid2, hup2, hdesc2⟩
      rw [(syncVersions_plugins hsv).1]
      refine List.mem_map.mpr ⟨p2, hp2, ?_⟩
      show (if p2.id = q.id then updatePlugin item c u p2 else p2) = p2
      rw [if_neg hqid]

/-- One inner-loop iteration keeps the id, plugin id, key and artifact of a
stored version row, provided the loop runs for another plugin or the entry,
if its key matches the row's, omits `artifact`.  The dict can be stale, so
the row the update targets is recovered through the phase decomposition. -/
theorem syncVersionItem_art_step {db0 : DB} {pid2 : Nat}
    {K : List (Option String × Option String)} {db : DB} {vj : VersionItem}
    {db2 : DB} {vid vpid : Nat} {k : Option String × Option String}
    {art : Option String}
    (hwf : WF db)
    (h : syncVersionItem pid2 (existingFor db0 pid2) db vj = .ok db2)
    (hph : Phase db0 pid2 K db)
    (hside : pid2 ≠ vpid ∨ (ikey vj = k → vj.artifact = none))
    (hsh : ∃ v2 ∈ db.versions, v2.id = vid ∧ v2.plugin_id = vpid ∧
      vkey v2 = k ∧ v2.artifact = art) :
    ∃ v2 ∈ db2.versions, v2.id = vid ∧ v2.plugin_id = vpid ∧
      vkey v2 = k ∧ v2.artifact = art := by
  obtain ⟨G, added, hdecomp, hGpres, haddedP, hnext⟩ := hph
  obtain ⟨v2, hv2, hidv, hpidv, hkv, hartv⟩ := hsh
  obtain ⟨c2, hc2, hshape⟩ := syncVersionItem_ok h
  rcases hshape with ⟨hd, rfl⟩ | ⟨ev, hd, rfl⟩
  · exact ⟨v2, List.mem_append_left _ hv2, hidv, hpidv, hkv, hartv⟩
  · obtain ⟨hevmem, hevkey⟩ := dictFind_some hd
    obtain ⟨hevdb0, hevpid⟩ := existingFor_mem hevmem
    have hGev_mem : G ev ∈ db.versions := by
      rw [hdecomp]
      exact List.mem_append_left _ (List.mem_map_of_mem G hevdb0)
    by_cases hvev : v2.id = ev.id
    · have hveq : v2 = G ev :=
        nodup_map_inj hwf.vNodup hv2 hGev_mem (by rw [hvev, (hGpres ev).1])
      have hpid2v : pid2 = vpid := by
        rw [← hpidv, hveq, (hGpres ev).2.1, hevpid]
      have hkeq : ikey vj = k := by
        rw [← hkv, hveq, (hGpres ev).2.2, hevkey]
      have hart_none : vj.artifact = none := by
        rcases hside with hne | hcond
        · exact absurd hpid2v hne
        · exact hcond hkeq
      refine ⟨updateVersion vj c2 v2, ?_, ?_, ?_, ?_, ?_⟩
      · refine List.mem_map.mpr ⟨v2, hv2, ?_⟩
        show (if v2.id = ev.id then updateVersion vj c2 v2 else v2) =
          updateVersion vj c2 v2
        rw [if_pos hvev]
      · simp [hidv]
      · simp [hpidv]
      · simp [hkv]
      · show getOpt vj.artifact v2.artifact = art
        rw [hart_none]
        exact hartv
    · refine ⟨v2, ?_, hidv, hpidv, hkv, hartv⟩
      refine List.mem_map.mpr ⟨v2, hv2, ?_⟩
      show (if v2.id = ev.id then updateVersion vj c2 v2 else v2) = v2
      rw [if_neg hvev]

/-- A whole inner-loop run keeps a stored version row with its artifact,
under the same side condition as the single step. -/
theorem syncVersions_art_shadow {db0 : DB} {pid2 : Nat} (hwf0 : WF db0)
    {vid vpid : Nat} {k : Option String × Option String} {art : Option String} :
    ∀ {vis : List VersionItem} {K : List (Option String × Option String)}
      {db db2 : DB},
      syncVersions pid2 (existingFor db0 pid2) vis db = .ok db2 →
      Phase db0 pid2 K db → WF db →
      (∃ p ∈ db.plugins, pid2 = p.id) →
      (pid2 ≠ vpid ∨ ∀ vj ∈ vis, ikey vj = k → vj.artifact = none) →
      (∃ v2 ∈ db.versions, v2.id = vid ∧ v2.plugin_id = vpid ∧
        vkey v2 = k ∧ v2.artifact = art) →
      ∃ v2 ∈ db2.versions, v2.id = vid ∧ v2.plugin_id = vpid ∧
        vkey v2 = k ∧ v2.artifact = art := by
  intro vis
  induction vis with
  | nil =>
    intro K db db2 h _ _ _ _ hsh
    cases h
    exact hsh
  | cons vj rest ih =>
    intro K db db2 h hph hwf hpid hside hsh
    obtain ⟨dbA, hA, hrest⟩ := syncVersions_cons_ok h
    obtain ⟨hwfA, hplA, _, _⟩ := syncVersionItem_WF hA hwf hpid
    have hphA := syncVersionItem_Phase hwf0 hA hph
    have hsideStep : pid2 ≠ vpid ∨ (ikey vj = k → vj.artifact = none) := by
      rcases hside with hne | hall
      · exact Or.inl hne
      · exact Or.inr (hall vj (List.mem_cons_self _ _))
    have hsideRest : pid2 ≠ vpid ∨ ∀ w ∈ rest, ikey w = k → w.artifact = none := by
      rcases hside with hne | hall
      · exact Or.inl hne
      · exact Or.inr (fun w hw => hall w (List.mem_cons_of_mem _ hw))
    exact ih hrest hphA hwfA (by rw [hplA]; exact hpid) hsideRest
      (syncVersionItem_art_step hwf hA hph hsideStep hsh)

/-- One outer-loop iteration keeps the id, plugin id, key and artifact of a
stored version row whose owning plugin (the row with primary key equal to
its `plugin_id`, unique by `WF`) has upstream id `up`, whenever the entry,
IF it matches `up`, omits `artifact` for the row's key.  A create-path
entry gets a fresh plugin id `≥ nextPluginId` and so cannot own the row;
an update-path entry that found a different plugin row updates only rows
of that other plugin. -/
theorem syncPluginItem_art_shadow {db : DB} {item : PluginItem} {db1 : DB}
    {vid vpid : Nat} {k : Option String × Option String} {art : Option String}
    {up : Option Int}
    (hwf : WF db) (h : syncPluginItem db item = .ok db1)
    (hvlt : vpid < db.nextPluginId)
    (howner : ∃ p2 ∈ db.plugins, p2.id = vpid ∧ p2.upstream_id = up)
    (hmatch : ∀ uid : Int, item.id = some uid → up = some uid →
      ∀ vi ∈ item.versions, ikey vi = k → vi.artifact = none)
    (hsh : ∃ v2 ∈ db.versions, v2.id = vid ∧ v2.plugin_id = vpid ∧
      vkey v2 = k ∧ v2.artifact = art) :
    ∃ v2 ∈ db1.versions, v2.id = vid ∧ v2.plugin_id = vpid ∧
      vkey v2 = k ∧ v2.artifact = art := by
  rcases syncPluginItem_ok h with ⟨_, rfl⟩ | ⟨uid, hid, c, u, hc, hu, hbranch⟩
  · exact hsh
  rcases hbranch with ⟨hf, hsv⟩ | ⟨q, hf, hsv⟩
  · have hwfC : WF (dbCreate db uid item c u) := WF_dbCreate hwf
    have hne : db.nextPluginId ≠ vpid := by
      intro he
      rw [he] at hvlt
      exact Nat.lt_irrefl _ hvlt
    exact syncVersions_art_shadow hwfC hsv
      (Phase_init (dbCreate db uid item c u) db.nextPluginId) hwfC
      ⟨createPlugin db.nextPluginId uid item c u,
        List.mem_append_right _ (List.mem_singleton_self _), rfl⟩
      (Or.inl hne) hsh
  · have hwfU : WF (dbUpdate db item c u q) := WF_dbUpdate hwf
    have hqmem := List.mem_of_find?_eq_some hf
    have hqup : q.upstream_id = some uid := by simpa using List.find?_some hf
    have hpidarg : ∃ p3 ∈ (dbUpdate db item c u q).plugins, q.id = p3.id := by
      refine ⟨if q.id = q.id then updatePlugin item c u q else q,
        List.mem_map.mpr ⟨q, hqmem, rfl⟩, ?_⟩
      split <;> simp
    by_cases hqv : q.id = vpid
    · obtain ⟨pOwn, hpOwn, hpOid, hpOup⟩ := howner
      have hqOwn : q = pOwn :=
        nodup_map_inj hwf.pNodup hqmem hpOwn (by rw [hqv, hpOid])
      have hupuid : up = some uid := by
        rw [hqOwn, hpOup] at hqup
        exact hqup
      exact syncVersions_art_shadow hwfU hsv
        (Phase_init (dbUpdate db item c u q) q.id) hwfU hpidarg
        (Or.inr (hmatch uid hid hupuid)) hsh
    · exact syncVersions_art_shadow hwfU hsv
        (Phase_init (dbUpdate db item c u q) q.id) hwfU hpidarg
        (Or.inl hqv) hsh

/-- Folding the description frame over the whole snapshot. -/
theorem ensure_desc_shadow :
    ∀ {s : List PluginItem} {db db1 : DB} {pid : Nat} {up : Option Int}
      {desc : Option String},
      WF db → ensure_plugins_synced s db = .ok db1 →
      (∀ item ∈ s, ∀ uid : Int, item.id = some uid → up = some uid →
        item.description = none) →
      (∃ p2 ∈ db.plugins, p2.id = pid ∧ p2.upstream_id = up ∧
        p2.description = desc) →
      ∃ p2 ∈ db1.plugins, p2.id = pid ∧ p2.upstream_id = up ∧
        p2.description = desc := by
  intro s
  induction s with
  | nil =>
    intro db db1 pid up desc _ h _ hsh
    cases h
    exact hsh
  | cons item rest ih =>
    intro db db1 pid up desc hwf h hmatch hsh
    obtain ⟨dbA, hA, hrest⟩ := ensure_cons_ok h
    exact ih (syncPluginItem_WF hA hwf) hrest
      (fun it hit => hmatch it (List.mem_cons_of_mem _ hit))
      (syncPluginItem_desc_shadow hwf hA (hmatch item (List.mem_cons_self _ _)) hsh)

/-- Folding the artifact frame over the whole snapshot: the owner row (same
id, same upstream id) survives every iteration, the owner id stays below
the growing plugin id counter, and the version row keeps its artifact. -/
theorem ensure_art_shadow :
    ∀ {s : List PluginItem} {db db1 : DB} {vid vpid : Nat}
      {k : Option String × Option String} {art : Option String} {up : Option Int},
      WF db → ensure_plugins_synced s db = .ok db1 →
      vpid < db.nextPluginId →
      (∃ p2 ∈ db.plugins, p2.id = vpid ∧ p2.upstream_id = up) →
      (∀ item ∈ s, ∀ uid : Int, item.id = some uid → up = some uid →
        ∀ vi ∈ item.versions, ikey vi = k → vi.artifact = none) →
      (∃ v2 ∈ db.versions, v2.id = vid ∧ v2.plugin_id = vpid ∧
        vkey v2 = k ∧ v2.artifact = art) →
      ∃ v2 ∈ db1.versions, v2.id = vid ∧ v2.plugin_id = vpid ∧
        vkey v2 = k ∧ v2.artifact = art := by
  intro s
  induction s with
  | nil =>
    intro db db1 vid vpid k art up _ h _ _ _ hsh
    cases h
    exact hsh
  | cons item rest ih =>
    intro db db1 vid vpid k art up hwf h hlt howner hmatch hsh
    obtain ⟨dbA, hA, hrest⟩ := ensure_cons_ok h
    have hwfA := syncPluginItem_WF hA hwf
    have hltA : vpid < dbA.nextPluginId :=
      Nat.lt_of_lt_of_le hlt (syncPluginItem_next_mono hA)
    have hownerA : ∃ p3 ∈ dbA.plugins, p3.id = vpid ∧ p3.upstream_id = up := by
      obtain ⟨p2, hp2, hid2, hup2⟩ := howner
      obtain ⟨p3, hp3, hid3, hup3⟩ :=
        @syncPluginItem_plugin_pres (Option Int) Plugin.upstream_id _ _ _ hA
          (fun c u q _ _ => updatePlugin_upstream_id item c u q) p2 hp2
      exact ⟨p3, hp3, by rw [hid3, hid2], by rw [hup3, hup2]⟩
    exact ih hwfA hrest hltA hownerA
      (fun it hit => hmatch it (List.mem_cons_of_mem _ hit))
      (syncPluginItem_art_shadow hwf hA hlt howner
        (hmatch item (List.mem_cons_self _ _)) hsh)

/-! ## Claim C3: the theorem -/

/-- C3: field-level merge frame, per matching entry.  Over any well-formed
store: a stored plugin row keeps its `description` (same primary key)
through the sync whenever every snapshot entry that matches it by upstream
id omits `description`; a stored version row keeps its `artifact` whenever
every entry matching its owning plugin's upstream id omits `artifact` for
that row's `(name, hash)` key (absent and JSON null are the same to
`dict.get`).  Entries of OTHER plugins may freely supply those fields:
they cannot touch this row. -/
theorem C3_upstream_field_frame (s : List PluginItem) (db db1 : DB)
    (hwf : WF db) (h : ensure_plugins_synced s db = .ok db1) :
    (∀ p ∈ db.plugins,
      (∀ item ∈ s, ∀ uid : Int, item.id = some uid → p.upstream_id = some uid →
        item.description = none) →
      ∃ p2 ∈ db1.plugins, p2.id = p.id ∧ p2.description = p.description) ∧
    (∀ v ∈ db.versions, ∀ p ∈ db.plugins, p.id = v.plugin_id →
      (∀ item ∈ s, ∀ uid : Int, item.id = some uid → p.upstream_id = some uid →
        ∀ vi ∈ item.versions, ikey vi = vkey v → vi.artifact = none) →
      ∃ v2 ∈ db1.versions, v2.id = v.id ∧ v2.artifact = v.artifact) := by
  constructor
  · intro p hp hmatch
    obtain ⟨p2, hp2, hid2, _, hdesc2⟩ :=
      ensure_desc_shadow hwf h hmatch ⟨p, hp, rfl, rfl, rfl⟩
    exact ⟨p2, hp2, hid2, hdesc2⟩
  · intro v hv p hp hpid hmatch
    have hvlt : v.plugin_id < db.nextPluginId := by
      rw [← hpid]
      exact hwf.pLt p hp
    have howner : ∃ p2 ∈ db.plugins, p2.id = v.plugin_id ∧
        p2.upstream_id = p.upstream_id := ⟨p, hp, hpid, rfl⟩
    obtain ⟨v2, hv2, hid2, _, _, hart2⟩ :=
      ensure_art_shadow hwf h hvlt howner hmatch ⟨v, hv, rfl, rfl, rfl, rfl⟩
    exact ⟨v2, hv2, hid2, hart2⟩

/-- Witness for C3: syncing `c3Snap` — whose single entry matches
`c3Plugin` by upstream id and `c3Version` by key but omits `description`
and `artifact` — into the well-formed store `c3DB` keeps the stored
description and artifact while the version downloads counter moves to the
upstream value 9. -/
theorem C3_upstream_field_frame_witness :
    (∃ p2 ∈ c3DB2.plugins, p2.id = c3Plugin.id ∧
      p2.description = c3Plugin.description) ∧
    (∃ v2 ∈ c3DB2.versions, v2.id = c3Version.id ∧
      v2.artifact = c3Version.artifact) := by
  have hwf : WF c3DB := ⟨by decide, by decide, by decide, by decide, by decide⟩
  have h := C3_upstream_field_frame c3Snap c3DB c3DB2 hwf rfl
  refine ⟨h.1 c3Plugin (List.mem_singleton_self _) ?_,
    h.2 c3Version (List.mem_singleton_self _) c3Plugin
      (List.mem_singleton_self _) rfl ?_⟩
  · intro item hit uid h1 h2
    cases hit with
    | head => rfl
    | tail _ hmem => cases hmem
  · intro item hit uid h1 h2 vi hvi hk
    cases hit with
    | head =>
      cases hvi with
      | head => rfl
      | tail _ hmem => cases hmem
    | tail _ hmem => cases hmem

end DeckyMirror
